import Mathlib

/-!
Verification development for the request-to-recipe pipeline of the
Today's-recipe-AI repository.

The repository's handlers are TypeScript functions (`netlify/functions/generate-recipe.ts`,
`netlify/functions/analyze-image.ts`, `api/generate-recipe.ts`, `api/analyze-image.ts`,
`server.ts` and the express variant with blob upload).  We embed them shallowly:

* JavaScript strings are `List Char` (`Str` below).
* `JSON.parse` / `JSON.stringify` (platform builtins used pervasively by the
  handlers) are embedded as an executable JSON reader (`jsonParse`) and writer
  (`jsonWrite`) over an inductive `Jval` type.  Numbers are kept as their raw
  scanned literal text, which is adequate because no handler inspects numeric
  JSON values.
* Fallible JavaScript code is modelled with `Option` / `Except`; a thrown
  exception is an `Except.error` carrying a `JsError` (status + message),
  matching the `catch (err)` blocks of the handlers.
* The external generation service, the multipart decoder (busboy) and the image
  codec (sharp) are outside the repository; handler models are parameterised by
  their outcomes, and the resize geometry is modelled from the spec (§4.2).
-/

namespace RecipeAI

/-- JavaScript strings, as lists of characters. -/
abbrev Str := List Char

/-- `s` starts with `pat` (character-wise). -/
def strStartsWith : Str → Str → Bool
  | _, [] => true
  | [], _ :: _ => false
  | c :: cs, p :: ps => c = p && strStartsWith cs ps

/-- Embedding of `String.prototype.includes`: `pat` occurs contiguously in `s`. -/
def jsIncludes (s pat : Str) : Bool :=
  match s with
  | [] => strStartsWith [] pat
  | _ :: rest => strStartsWith s pat || jsIncludes rest pat

/-- JSON values.  A number keeps its raw scanned literal (no handler in this
repository ever inspects a numeric value, so no numeric semantics is needed). -/
inductive Jval where
  | null
  | bool (b : Bool)
  | num (raw : Str)
  | str (s : Str)
  | arr (items : List Jval)
  | obj (props : List (Str × Jval))

instance : Inhabited Jval := ⟨Jval.null⟩

/-- Hexadecimal digit character for `n < 16` (lowercase, as `JSON.stringify` emits). -/
def hexDigitChar (n : Nat) : Char :=
  if n < 10 then Char.ofNat (48 + n) else Char.ofNat (87 + n)

/-- JSON escape of a single character, as produced by `JSON.stringify`. -/
def escChar (c : Char) : Str :=
  if c = '"' then ['\\', '"']
  else if c = '\\' then ['\\', '\\']
  else if c = '\n' then ['\\', 'n']
  else if c = '\r' then ['\\', 'r']
  else if c = '\t' then ['\\', 't']
  else if c = Char.ofNat 8 then ['\\', 'b']
  else if c = Char.ofNat 12 then ['\\', 'f']
  else if c.toNat < 32 then
    ['\\', 'u', '0', '0', hexDigitChar (c.toNat / 16), hexDigitChar (c.toNat % 16)]
  else [c]

/-- Escape every character of a string body. -/
def escStr (s : Str) : Str := s.flatMap escChar

/-- A JSON string literal: quote, escaped body, quote. -/
def quoteStr (s : Str) : Str := '"' :: (escStr s ++ ['"'])

mutual

/-- Embedding of `JSON.stringify` (on values; `undefined`-dropping is modelled at
the call sites that need it by building the property list conditionally). -/
def jsonWrite : Jval → Str
  | .null => ("null").toList
  | .bool true => ("true").toList
  | .bool false => ("false").toList
  | .num raw => raw
  | .str s => quoteStr s
  | .arr xs => '[' :: (jsonWriteItems xs ++ [']'])
  | .obj ps => '{' :: (jsonWriteProps ps ++ ['}'])

/-- Comma-separated rendering of array items. -/
def jsonWriteItems : List Jval → Str
  | [] => []
  | [x] => jsonWrite x
  | x :: y :: xs => jsonWrite x ++ ',' :: jsonWriteItems (y :: xs)

/-- Comma-separated rendering of object properties. -/
def jsonWriteProps : List (Str × Jval) → Str
  | [] => []
  | [(k, v)] => quoteStr k ++ ':' :: jsonWrite v
  | (k, v) :: q :: ps => quoteStr k ++ ':' :: jsonWrite v ++ ',' :: jsonWriteProps (q :: ps)

end

/-- JSON whitespace (the four characters accepted by `JSON.parse`). -/
def isWsCh (c : Char) : Bool := c = ' ' || c = '\n' || c = '\t' || c = '\r'

/-- Drop leading JSON whitespace. -/
def skipWsL : Str → Str
  | c :: cs => if isWsCh c then skipWsL cs else c :: cs
  | [] => []

/-- ASCII decimal digit test. -/
def isDigitCh (c : Char) : Bool := 48 ≤ c.toNat && c.toNat ≤ 57

/-- Value of a hexadecimal digit character, if it is one. -/
def hexValCh (c : Char) : Option Nat :=
  if 48 ≤ c.toNat && c.toNat ≤ 57 then some (c.toNat - 48)
  else if 97 ≤ c.toNat && c.toNat ≤ 102 then some (c.toNat - 87)
  else if 65 ≤ c.toNat && c.toNat ≤ 70 then some (c.toNat - 55)
  else none

/-- Single-character JSON escapes (everything except `\u`). -/
def unescCh (e : Char) : Option Char :=
  if e = '"' then some '"'
  else if e = '\\' then some '\\'
  else if e = '/' then some '/'
  else if e = 'n' then some '\n'
  else if e = 'r' then some '\r'
  else if e = 't' then some '\t'
  else if e = 'b' then some (Char.ofNat 8)
  else if e = 'f' then some (Char.ofNat 12)
  else none

/-- Read a JSON string body after the opening quote; returns the decoded
characters and the input after the closing quote. -/
def jreadStrBody : Str → Option (Str × Str)
  | [] => none
  | c :: r =>
    if c = '"' then some ([], r)
    else if c = '\\' then
      match r with
      | [] => none
      | e :: r2 =>
        if e = 'u' then
          match r2 with
          | a :: b :: c2 :: d :: r3 =>
            match hexValCh a, hexValCh b, hexValCh c2, hexValCh d with
            | some va, some vb, some vc, some vd =>
              (jreadStrBody r3).map
                (fun p => (Char.ofNat (((va * 16 + vb) * 16 + vc) * 16 + vd) :: p.1, p.2))
            | _, _, _, _ => none
          | _ => none
        else
          match unescCh e with
          | some ch => (jreadStrBody r2).map (fun p => (ch :: p.1, p.2))
          | none => none
    else if c.toNat < 32 then none
    else (jreadStrBody r).map (fun p => (c :: p.1, p.2))

/-- Split a maximal run of decimal digits off the front. -/
def digitsTake (s : Str) : Str × Str := (s.takeWhile isDigitCh, s.dropWhile isDigitCh)

/-- Sign and digits after an exponent marker. -/
def jreadExpTail (pre : Str) (s : Str) : Option (Str × Str) :=
  let (sg, s1) := match s with
    | '+' :: r => (['+'], r)
    | '-' :: r => (['-'], r)
    | _ => (([] : Str), s)
  match digitsTake s1 with
  | ([], _) => none
  | (ds, rest) => some (pre ++ sg ++ ds, rest)

/-- Exponent part of a JSON number literal (possibly empty). -/
def jreadExpPart (s : Str) : Option (Str × Str) :=
  match s with
  | 'e' :: r => jreadExpTail ['e'] r
  | 'E' :: r => jreadExpTail ['E'] r
  | _ => some ([], s)

/-- A leading zero followed by more digits is not a valid JSON int part. -/
def leadingZeroBad : Str → Bool
  | '0' :: _ :: _ => true
  | _ => false

/-- Unsigned part of a JSON number literal. -/
def jreadNumBody (s : Str) : Option (Str × Str) :=
  match digitsTake s with
  | ([], _) => none
  | (ip, rest) =>
    if leadingZeroBad ip then none
    else
      match rest with
      | '.' :: r =>
        (match digitsTake r with
         | ([], _) => none
         | (fp, rest2) =>
           (jreadExpPart rest2).map (fun p => (ip ++ '.' :: (fp ++ p.1), p.2)))
      | _ => (jreadExpPart rest).map (fun p => (ip ++ p.1, p.2))

/-- Read a JSON number literal, returning its raw text and the rest. -/
def jreadNum (s : Str) : Option (Str × Str) :=
  match s with
  | '-' :: r => (jreadNumBody r).map (fun p => ('-' :: p.1, p.2))
  | _ => jreadNumBody s

mutual

/-- Fuelled JSON value reader (the core of the `JSON.parse` embedding). -/
def jreadVal : Nat → Str → Option (Jval × Str)
  | 0, _ => none
  | fuel + 1, s =>
    match skipWsL s with
    | 'n' :: 'u' :: 'l' :: 'l' :: r => some (.null, r)
    | 't' :: 'r' :: 'u' :: 'e' :: r => some (.bool true, r)
    | 'f' :: 'a' :: 'l' :: 's' :: 'e' :: r => some (.bool false, r)
    | '"' :: r => (jreadStrBody r).map (fun p => (.str p.1, p.2))
    | '[' :: r =>
      (match skipWsL r with
       | [] => none
       | c :: r2 =>
         if c = ']' then some (.arr [], r2)
         else (jreadItems fuel (c :: r2)).map (fun p => (.arr p.1, p.2)))
    | '{' :: r =>
      (match skipWsL r with
       | [] => none
       | c :: r2 =>
         if c = '}' then some (.obj [], r2)
         else (jreadProps fuel (c :: r2)).map (fun p => (.obj p.1, p.2)))
    | s2 => (jreadNum s2).map (fun p => (.num p.1, p.2))

/-- One-or-more comma-separated array items, consuming the closing bracket. -/
def jreadItems : Nat → Str → Option (List Jval × Str)
  | 0, _ => none
  | fuel + 1, s =>
    match jreadVal fuel s with
    | none => none
    | some (v, r) =>
      match skipWsL r with
      | ',' :: r2 => (jreadItems fuel r2).map (fun p => (v :: p.1, p.2))
      | ']' :: r2 => some ([v], r2)
      | _ => none

/-- One-or-more comma-separated object properties, consuming the closing brace. -/
def jreadProps : Nat → Str → Option (List (Str × Jval) × Str)
  | 0, _ => none
  | fuel + 1, s =>
    match skipWsL s with
    | '"' :: r =>
      (match jreadStrBody r with
       | none => none
       | some (k, r1) =>
         match skipWsL r1 with
         | ':' :: r2 =>
           (match jreadVal fuel r2 with
            | none => none
            | some (v, r3) =>
              match skipWsL r3 with
              | ',' :: r4 => (jreadProps fuel r4).map (fun p => ((k, v) :: p.1, p.2))
              | '}' :: r4 => some ([(k, v)], r4)
              | _ => none)
         | _ => none)
    | _ => none

end

/-- Embedding of `JSON.parse`: read one value, require only whitespace after it. -/
def jsonParse (s : Str) : Option Jval :=
  match jreadVal (s.length + 1) s with
  | some (v, r) => if skipWsL r = [] then some v else none
  | none => none

mutual

/-- Node count of a JSON value; a lower bound for the reader fuel. -/
def jsize : Jval → Nat
  | .null => 1
  | .bool _ => 1
  | .num _ => 1
  | .str _ => 1
  | .arr xs => 1 + jsizeItems xs
  | .obj ps => 1 + jsizeProps ps

/-- Node count of an item list. -/
def jsizeItems : List Jval → Nat
  | [] => 0
  | x :: xs => 1 + jsize x + jsizeItems xs

/-- Node count of a property list. -/
def jsizeProps : List (Str × Jval) → Nat
  | [] => 0
  | (_, v) :: ps => 1 + jsize v + jsizeProps ps

end

mutual

/-- Values built without raw numbers; the domain on which the writer/reader
round-trip is stated (every value any handler constructs from strings and
arrays lies in it). -/
def jgood : Jval → Bool
  | .null => true
  | .bool _ => true
  | .num _ => false
  | .str _ => true
  | .arr xs => jgoodItems xs
  | .obj ps => jgoodProps ps

/-- `jgood` on every item. -/
def jgoodItems : List Jval → Bool
  | [] => true
  | x :: xs => jgood x && jgoodItems xs

/-- `jgood` on every property value. -/
def jgoodProps : List (Str × Jval) → Bool
  | [] => true
  | (_, v) :: ps => jgood v && jgoodProps ps

end

theorem jsize_pos (v : Jval) : 0 < jsize v := by
  cases v <;> simp only [jsize] <;> omega

theorem skipWsL_not_ws {c : Char} (h : isWsCh c = false) (r : Str) :
    skipWsL (c :: r) = c :: r := by
  simp [skipWsL, h]

theorem hexValCh_hexDigitChar : ∀ n : Fin 16, hexValCh (hexDigitChar n.val) = some n.val := by
  decide

/-- Reading one escaped character undoes `escChar`. -/
theorem jreadStrBody_escChar (c : Char) (rest : Str) :
    jreadStrBody (escChar c ++ rest) = (jreadStrBody rest).map (fun p => (c :: p.1, p.2)) := by
  by_cases h1 : c = '"'
  · subst h1
    show jreadStrBody ('\\' :: '"' :: rest) = _
    rw [jreadStrBody.eq_def]; rfl
  · by_cases h2 : c = '\\'
    · subst h2
      show jreadStrBody ('\\' :: '\\' :: rest) = _
      rw [jreadStrBody.eq_def]; rfl
    · by_cases h3 : c = '\n'
      · subst h3
        show jreadStrBody ('\\' :: 'n' :: rest) = _
        rw [jreadStrBody.eq_def]; rfl
      · by_cases h4 : c = '\r'
        · subst h4
          show jreadStrBody ('\\' :: 'r' :: rest) = _
          rw [jreadStrBody.eq_def]; rfl
        · by_cases h5 : c = '\t'
          · subst h5
            show jreadStrBody ('\\' :: 't' :: rest) = _
            rw [jreadStrBody.eq_def]; rfl
          · by_cases h6 : c = Char.ofNat 8
            · subst h6
              show jreadStrBody ('\\' :: 'b' :: rest) = _
              rw [jreadStrBody.eq_def]; rfl
            · by_cases h7 : c = Char.ofNat 12
              · subst h7
                show jreadStrBody ('\\' :: 'f' :: rest) = _
                rw [jreadStrBody.eq_def]; rfl
              · by_cases h8 : c.toNat < 32
                · have hq : c.toNat / 16 < 16 := by omega
                  have hrm : c.toNat % 16 < 16 := Nat.mod_lt _ (by omega)
                  have e1 : hexValCh (hexDigitChar (c.toNat / 16)) = some (c.toNat / 16) :=
                    hexValCh_hexDigitChar ⟨_, hq⟩
                  have e2 : hexValCh (hexDigitChar (c.toNat % 16)) = some (c.toNat % 16) :=
                    hexValCh_hexDigitChar ⟨_, hrm⟩
                  have h0 : hexValCh '0' = some 0 := rfl
                  simp only [escChar, if_neg h1, if_neg h2, if_neg h3, if_neg h4, if_neg h5,
                    if_neg h6, if_neg h7, if_pos h8, List.cons_append, List.nil_append]
                  rw [jreadStrBody.eq_def]
                  simp only [reduceIte, h0, e1, e2]
                  have harith :
                      ((0 * 16 + 0) * 16 + c.toNat / 16) * 16 + c.toNat % 16 = c.toNat := by
                    omega
                  rw [harith]
                  simp [Char.ofNat_toNat]
                · simp only [escChar, if_neg h1, if_neg h2, if_neg h3, if_neg h4, if_neg h5,
                    if_neg h6, if_neg h7, if_neg h8, List.cons_append, List.nil_append]
                  rw [jreadStrBody.eq_def]
                  simp only [if_neg h1, if_neg h2, if_neg h8]

/-- Reading an escaped string body recovers the original characters. -/
theorem jreadStrBody_escStr (s : Str) (rest : Str) :
    jreadStrBody (escStr s ++ '"' :: rest) = some (s, rest) := by
  induction s with
  | nil =>
    show jreadStrBody ('"' :: rest) = some ([], rest)
    rw [jreadStrBody.eq_def]; rfl
  | cons c cs ih =>
    have : escStr (c :: cs) = escChar c ++ escStr cs := by
      simp [escStr]
    rw [this, List.append_assoc, jreadStrBody_escChar, ih]
    rfl

/-- Every writable (`jgood`) value renders with a head character that is not
whitespace and closes no bracket. -/
theorem jsonWrite_head (v : Jval) (hg : jgood v = true) :
    ∃ c t, jsonWrite v = c :: t ∧ isWsCh c = false ∧ c ≠ ']' ∧ c ≠ '}' := by
  cases v with
  | num raw => simp [jgood] at hg
  | bool b => cases b <;> refine ⟨_, _, rfl, ?_, ?_, ?_⟩ <;> decide
  | null => refine ⟨'n', _, rfl, ?_, ?_, ?_⟩ <;> decide
  | str s => refine ⟨'"', _, rfl, ?_, ?_, ?_⟩ <;> decide
  | arr xs => refine ⟨'[', _, rfl, ?_, ?_, ?_⟩ <;> decide
  | obj ps => refine ⟨'\x7b', _, rfl, ?_, ?_, ?_⟩ <;> decide

/-- The rendered items of a nonempty array start with the rendered head value. -/
theorem jsonWriteItems_cons_decomp (x : Jval) (xs : List Jval) :
    ∃ tl, jsonWriteItems (x :: xs) = jsonWrite x ++ tl
      ∧ tl = (match xs with | [] => ([] : Str) | _ :: _ => ',' :: jsonWriteItems xs) := by
  cases xs with
  | nil => exact ⟨[], by simp [jsonWriteItems], rfl⟩
  | cons y ys => exact ⟨',' :: jsonWriteItems (y :: ys), rfl, rfl⟩

/-- The rendered properties of a nonempty object start with the quoted key. -/
theorem jsonWriteProps_cons_decomp (k : Str) (v : Jval) (ps : List (Str × Jval)) :
    ∃ tl, jsonWriteProps ((k, v) :: ps) = quoteStr k ++ ':' :: jsonWrite v ++ tl
      ∧ tl = (match ps with | [] => ([] : Str) | _ :: _ => ',' :: jsonWriteProps ps) := by
  cases ps with
  | nil => exact ⟨[], by simp [jsonWriteProps], rfl⟩
  | cons q qs => exact ⟨',' :: jsonWriteProps (q :: qs), rfl, rfl⟩

theorem jreadVal_null_step (f : Nat) (rest : Str) :
    jreadVal (f + 1) ('n' :: 'u' :: 'l' :: 'l' :: rest) = some (.null, rest) := rfl

theorem jreadVal_true_step (f : Nat) (rest : Str) :
    jreadVal (f + 1) ('t' :: 'r' :: 'u' :: 'e' :: rest) = some (.bool true, rest) := rfl

theorem jreadVal_false_step (f : Nat) (rest : Str) :
    jreadVal (f + 1) ('f' :: 'a' :: 'l' :: 's' :: 'e' :: rest) = some (.bool false, rest) := rfl

theorem jreadVal_str_step (f : Nat) (r : Str) :
    jreadVal (f + 1) ('"' :: r) = (jreadStrBody r).map (fun p => (.str p.1, p.2)) := rfl

theorem jreadVal_openArr_step (f : Nat) (r : Str) :
    jreadVal (f + 1) ('[' :: r)
      = (match skipWsL r with
         | [] => none
         | c :: r2 =>
           if c = ']' then some (.arr [], r2)
           else (jreadItems f (c :: r2)).map (fun p => (.arr p.1, p.2))) := rfl

theorem jreadVal_openObj_step (f : Nat) (r : Str) :
    jreadVal (f + 1) ('{' :: r)
      = (match skipWsL r with
         | [] => none
         | c :: r2 =>
           if c = '}' then some (.obj [], r2)
           else (jreadProps f (c :: r2)).map (fun p => (.obj p.1, p.2))) := rfl

theorem jreadItems_step (f : Nat) (s : Str) :
    jreadItems (f + 1) s
      = (match jreadVal f s with
         | none => none
         | some (v, r) =>
           match skipWsL r with
           | ',' :: r2 => (jreadItems f r2).map (fun p => (v :: p.1, p.2))
           | ']' :: r2 => some ([v], r2)
           | _ => none) := rfl

theorem jreadProps_step (f : Nat) (s : Str) :
    jreadProps (f + 1) s
      = (match skipWsL s with
         | '"' :: r =>
           (match jreadStrBody r with
            | none => none
            | some (k, r1) =>
              match skipWsL r1 with
              | ':' :: r2 =>
                (match jreadVal f r2 with
                 | none => none
                 | some (v, r3) =>
                   match skipWsL r3 with
                   | ',' :: r4 => (jreadProps f r4).map (fun p => ((k, v) :: p.1, p.2))
                   | '}' :: r4 => some ([(k, v)], r4)
                   | _ => none)
              | _ => none)
         | _ => none) := rfl

/-- Round-trip of the `JSON.parse` embedding against the `JSON.stringify`
embedding, for every fuel at least the node count. -/
theorem jread_roundtrip : ∀ f : Nat,
    (∀ v rest, jgood v = true → jsize v ≤ f →
      jreadVal f (jsonWrite v ++ rest) = some (v, rest)) ∧
    (∀ xs rest, jgoodItems xs = true → xs ≠ [] → jsizeItems xs ≤ f →
      jreadItems f (jsonWriteItems xs ++ ']' :: rest) = some (xs, rest)) ∧
    (∀ ps rest, jgoodProps ps = true → ps ≠ [] → jsizeProps ps ≤ f →
      jreadProps f (jsonWriteProps ps ++ '}' :: rest) = some (ps, rest)) := by
  intro f
  induction f with
  | zero =>
    refine ⟨fun v rest _ hsz => ?_, fun xs rest _ hne hsz => ?_, fun ps rest _ hne hsz => ?_⟩
    · exact absurd hsz (by have := jsize_pos v; omega)
    · cases xs with
      | nil => exact absurd rfl hne
      | cons x xs => exact absurd hsz (by simp only [jsizeItems]; omega)
    · cases ps with
      | nil => exact absurd rfl hne
      | cons p ps =>
        exact absurd hsz (by obtain ⟨k, v⟩ := p; simp only [jsizeProps]; omega)
  | succ f ih =>
    obtain ⟨ihv, ihi, ihp⟩ := ih
    refine ⟨fun v rest hg hsz => ?_, fun xs rest hg hne hsz => ?_,
      fun ps rest hg hne hsz => ?_⟩
    · cases v with
      | null => exact jreadVal_null_step f rest
      | bool b =>
        cases b with
        | true => exact jreadVal_true_step f rest
        | false => exact jreadVal_false_step f rest
      | num raw => simp [jgood] at hg
      | str s =>
        have h1 : jsonWrite (.str s) ++ rest = '"' :: (escStr s ++ '"' :: rest) := by
          simp [jsonWrite, quoteStr]
        rw [h1, jreadVal_str_step, jreadStrBody_escStr]
        rfl
      | arr xs =>
        cases xs with
        | nil => exact rfl
        | cons x xs =>
          simp only [jgood, jgoodItems, Bool.and_eq_true] at hg
          obtain ⟨c, t, hw, hcws, hcbr, _⟩ := jsonWrite_head x hg.1
          obtain ⟨tl, htl, _⟩ := jsonWriteItems_cons_decomp x xs
          have hitems := ihi (x :: xs) rest
            (by simp only [jgoodItems, Bool.and_eq_true]; exact hg)
            (by simp) (by simp only [jsize] at hsz; omega)
          have h1 : jsonWrite (.arr (x :: xs)) ++ rest
              = '[' :: (jsonWriteItems (x :: xs) ++ ']' :: rest) := by
            simp [jsonWrite]
          have hshape : jsonWriteItems (x :: xs) ++ ']' :: rest
              = c :: (t ++ (tl ++ ']' :: rest)) := by
            rw [htl, hw]; simp
          rw [h1, jreadVal_openArr_step, hshape, skipWsL_not_ws hcws]
          simp only [if_neg hcbr, ← hshape, hitems]
          rfl
      | obj ps =>
        cases ps with
        | nil => exact rfl
        | cons p ps =>
          obtain ⟨k, v⟩ := p
          simp only [jgood, jgoodProps, Bool.and_eq_true] at hg
          obtain ⟨tl, htl, _⟩ := jsonWriteProps_cons_decomp k v ps
          have hprops := ihp ((k, v) :: ps) rest
            (by simp only [jgoodProps, Bool.and_eq_true]; exact hg)
            (by simp) (by simp only [jsize] at hsz; omega)
          have h1 : jsonWrite (.obj ((k, v) :: ps)) ++ rest
              = '{' :: (jsonWriteProps ((k, v) :: ps) ++ '}' :: rest) := by
            simp [jsonWrite]
          have hshape : jsonWriteProps ((k, v) :: ps) ++ '}' :: rest
              = '"' :: (escStr k ++ ('"' :: ':' :: jsonWrite v ++ (tl ++ '}' :: rest))) := by
            rw [htl]; simp [quoteStr]
          rw [h1, jreadVal_openObj_step, hshape, skipWsL_not_ws (by decide)]
          simp only [if_neg (by decide : ¬ ('"' = '}'))]
          rw [← hshape, hprops]
          rfl
    · cases xs with
      | nil => exact absurd rfl hne
      | cons x xs =>
        simp only [jgoodItems, Bool.and_eq_true] at hg
        obtain ⟨tl, htl, htl2⟩ := jsonWriteItems_cons_decomp x xs
        have hx := ihv x (tl ++ ']' :: rest) hg.1
          (by simp only [jsizeItems] at hsz; omega)
        rw [jreadItems_step, htl, List.append_assoc, hx]
        cases xs with
        | nil =>
          subst htl2
          simp [skipWsL_not_ws (by decide : isWsCh ']' = false)]
        | cons y ys =>
          subst htl2
          have hrest := ihi (y :: ys) rest hg.2 (by simp)
            (by simp only [jsizeItems] at hsz ⊢; omega)
          simp only [List.cons_append, skipWsL_not_ws (by decide : isWsCh ',' = false), hrest]
          rfl
    · cases ps with
      | nil => exact absurd rfl hne
      | cons p ps =>
        obtain ⟨k, v⟩ := p
        simp only [jgoodProps, Bool.and_eq_true] at hg
        obtain ⟨tl, htl, htl2⟩ := jsonWriteProps_cons_decomp k v ps
        have hv := ihv v (tl ++ '}' :: rest) hg.1
          (by simp only [jsizeProps] at hsz; omega)
        have hkey := jreadStrBody_escStr k (':' :: jsonWrite v ++ (tl ++ '}' :: rest))
        have hshape : jsonWriteProps ((k, v) :: ps) ++ '}' :: rest
            = '"' :: (escStr k ++ ('"' :: ':' :: (jsonWrite v ++ (tl ++ '}' :: rest)))) := by
          rw [htl]; simp [quoteStr]
        rw [jreadProps_step, hshape, skipWsL_not_ws (by decide)]
        simp only []
        rw [show escStr k ++ ('"' :: ':' :: (jsonWrite v ++ (tl ++ '}' :: rest)))
            = escStr k ++ '"' :: (':' :: (jsonWrite v ++ (tl ++ '}' :: rest))) from rfl]
        rw [jreadStrBody_escStr k]
        simp only [skipWsL_not_ws (by decide : isWsCh ':' = false), hv]
        cases ps with
        | nil =>
          subst htl2
          simp [skipWsL_not_ws (by decide : isWsCh '}' = false)]
        | cons q qs =>
          subst htl2
          have hrest := ihp (q :: qs) rest hg.2 (by simp)
            (by simp only [jsizeProps] at hsz ⊢; omega)
          simp only [List.cons_append, skipWsL_not_ws (by decide : isWsCh ',' = false), hrest]
          rfl

mutual

/-- For writable values the node count never exceeds the rendered length. -/
theorem jsize_le_len : ∀ v : Jval, jgood v = true → jsize v ≤ (jsonWrite v).length
  | .null, _ => by simp [jsize, jsonWrite]
  | .bool b, _ => by cases b <;> simp [jsize, jsonWrite]
  | .num raw, hg => by simp [jgood] at hg
  | .str s, _ => by
    simp only [jsize, jsonWrite, quoteStr, List.length_cons, List.length_append]
    omega
  | .arr xs, hg => by
    have h := jsizeItems_le_len xs (by simpa [jgood] using hg)
    simp only [jsize, jsonWrite, List.length_cons, List.length_append]
    omega
  | .obj ps, hg => by
    have h := jsizeProps_le_len ps (by simpa [jgood] using hg)
    simp only [jsize, jsonWrite, List.length_cons, List.length_append]
    omega

/-- Item-list analogue of `jsize_le_len`, with one unit of slack. -/
theorem jsizeItems_le_len :
    ∀ xs : List Jval, jgoodItems xs = true → jsizeItems xs ≤ (jsonWriteItems xs).length + 1
  | [], _ => by simp [jsizeItems, jsonWriteItems]
  | [x], hg => by
    have h := jsize_le_len x (by simpa [jgoodItems] using hg)
    simp only [jsizeItems, jsonWriteItems]
    omega
  | x :: y :: xs, hg => by
    simp only [jgoodItems, Bool.and_eq_true] at hg
    have h1 := jsize_le_len x hg.1
    have h2 := jsizeItems_le_len (y :: xs) (by simp [jgoodItems, hg.2.1, hg.2.2])
    simp only [jsizeItems] at h2 ⊢
    simp only [jsonWriteItems, List.length_append, List.length_cons]
    omega

/-- Property-list analogue of `jsize_le_len`, with one unit of slack. -/
theorem jsizeProps_le_len :
    ∀ ps : List (Str × Jval), jgoodProps ps = true →
      jsizeProps ps ≤ (jsonWriteProps ps).length + 1
  | [], _ => by simp [jsizeProps, jsonWriteProps]
  | [(k, v)], hg => by
    have h := jsize_le_len v (by simpa [jgoodProps] using hg)
    simp only [jsizeProps, jsonWriteProps, quoteStr, List.length_append, List.length_cons]
    omega
  | (k, v) :: q :: ps, hg => by
    simp only [jgoodProps, Bool.and_eq_true] at hg
    have h1 := jsize_le_len v hg.1
    have h2 := jsizeProps_le_len (q :: ps) (by simp [jgoodProps]; exact hg.2)
    simp only [jsizeProps] at h2 ⊢
    simp only [jsonWriteProps, quoteStr, List.length_append, List.length_cons]
    omega

end

/-- The embedded `JSON.parse` inverts the embedded `JSON.stringify` on every
value free of raw numeric literals. -/
theorem jsonParse_jsonWrite (v : Jval) (hg : jgood v = true) :
    jsonParse (jsonWrite v) = some v := by
  have hsz : jsize v ≤ (jsonWrite v).length + 1 := by
    have := jsize_le_len v hg; omega
  have h := (jread_roundtrip ((jsonWrite v).length + 1)).1 v [] hg hsz
  rw [List.append_nil] at h
  simp [jsonParse, h, skipWsL]


/-! ### Shared request/response model -/

/-- JavaScript property lookup on a parsed object: the last duplicate key wins,
as with objects produced by `JSON.parse`. -/
def jLookup : List (Str × Jval) → Str → Option Jval
  | [], _ => none
  | (k, v) :: rest, key =>
    match jLookup rest key with
    | some r => some r
    | none => if k = key then some v else none

/-- Property access `x.k` (and `x?.k` on a defined receiver): objects yield the
property, primitives yield `undefined`. -/
def jProp (j : Jval) (key : Str) : Option Jval :=
  match j with
  | .obj ps => jLookup ps key
  | _ => none

/-- A thrown JavaScript error, as the catch blocks see it: an optional
`status` (set by the SDK on HTTP failures) and an optional `message`. -/
structure JsError where
  status : Option Int
  message : Option Str

/-- The slice of a netlify function event the handlers read. -/
structure HttpEvent where
  httpMethod : Str
  body : Option Str

/-- Outcome of the single external generation call: either a response whose
`.text` may be `undefined`, or a thrown error. -/
inductive GenOutcome where
  | ok (text : Option Str)
  | err (e : JsError)

/-- A handler response: status code plus body text (the `corsHeaders` constant
is attached to every response and is not modelled). -/
structure HttpResponse where
  statusCode : Nat
  body : Str

/-- Message of the `SyntaxError` thrown by `JSON.parse` (the engine wording is
abstracted by a fixed representative; no handler branches on its content). -/
def jsonSyntaxErrMsg : Str := ("Unexpected token in JSON").toList

/-- The parsed body is JSON `null` — the one `JSON.parse` result on which the
destructuring `const (...) = body` of the generate-recipe handlers throws a
TypeError (every other primitive boxes and destructures to `undefined`s). -/
def isNullVal : Jval → Bool
  | .null => true
  | _ => false

/-- Message of the TypeError thrown by destructuring a null body (a fixed
representative of the engine wording; no handler branches on its content). -/
def destructureNullMsg : Str :=
  ("Cannot destructure property \x27ingredients\x27 of \x27body\x27 as it is null.").toList

/-- `!apiKey`: the credential is missing when unset or the empty string. -/
def credentialMissing : Option Str → Bool
  | none => true
  | some k => k.isEmpty

/-- `parsed?.error?.message ?? parsed?.message` with the
`typeof inner === "string"` guard, from the catch blocks of the two netlify
handlers; a failing inner `JSON.parse` keeps the raw message. -/
def innerMessage (raw : Str) : Str :=
  match jsonParse raw with
  | none => raw
  | some parsed =>
    let viaError : Option Jval :=
      match jProp parsed ("error".toList) with
      | some e => jProp e ("message".toList)
      | none => none
    let chosen : Option Jval :=
      match viaError with
      | some .null => jProp parsed ("message".toList)
      | some v => some v
      | none => jProp parsed ("message".toList)
    match chosen with
    | some (.str s) => s
    | _ => raw

/-- `String(err)` fallback for a throwable without a message. -/
def strErrFallback : Str := ("Unknown error").toList

/-! ### netlify/functions/generate-recipe.ts -/

/-- The fixed replacement message of netlify/functions/generate-recipe.ts
line 106. -/
def genRecipeKeyFixedMsg : Str :=
  ("API key expired or invalid. Create a new key at Google AI Studio (aistudio.google.com/apikey), set GEMINI_API_KEY in Netlify Environment variables, then redeploy.").toList

/-- The credential-keyword rewrite of netlify/functions/generate-recipe.ts
line 105: expired / renew / leaked / API key / INVALID (no `referer`, unlike the
analyze-image handler). -/
def genRecipeKeywordRewrite (m : Str) : Str :=
  if jsIncludes m ("expired".toList) || jsIncludes m ("renew".toList)
      || jsIncludes m ("leaked".toList) || jsIncludes m ("API key".toList)
      || jsIncludes m ("INVALID".toList) then
    genRecipeKeyFixedMsg
  else m

/-- The catch block of the netlify generate-recipe handler (lines 95-110):
always an HTTP 500 whose error field is the extracted, possibly rewritten
message. -/
def netlifyGenCatch (e : JsError) : Nat × Jval :=
  let raw := match e.message with
    | some m => m
    | none => strErrFallback
  let msg := genRecipeKeywordRewrite (innerMessage raw)
  (500, .obj [(("error".toList), .str msg)])

/-- The try block of the netlify generate-recipe handler (lines 71-94): parse
the body (`event.body || "{}"`), destructure it (line 73, throwing a TypeError
inside the try when the parsed body is JSON null), validate `ingredients`,
make the single generation call, and return `text ? JSON.parse(text) : {}`
with status 200.  The boolean records whether the generation call was made. -/
def netlifyGenTry (event : HttpEvent) (gen : GenOutcome) :
    Except JsError (Nat × Jval) × Bool :=
  let bodyText := match event.body with
    | some b => if b.isEmpty then ("{}".toList) else b
    | none => ("{}".toList)
  match jsonParse bodyText with
  | none => (.error ⟨none, some jsonSyntaxErrMsg⟩, false)
  | some body =>
    if isNullVal body then (.error ⟨none, some destructureNullMsg⟩, false)
    else match jProp body ("ingredients".toList) with
    | some (.arr xs) =>
      if xs.isEmpty then
        (.ok (400, .obj [(("error".toList), .str ("ingredients array is required".toList))]),
          false)
      else
        match gen with
        | .err e => (.error e, true)
        | .ok text =>
          match text with
          | none => (.ok (200, .obj []), true)
          | some t =>
            if t.isEmpty then (.ok (200, .obj []), true)
            else
              match jsonParse t with
              | some data => (.ok (200, data), true)
              | none => (.error ⟨none, some jsonSyntaxErrMsg⟩, true)
    | _ =>
      (.ok (400, .obj [(("error".toList), .str ("ingredients array is required".toList))]),
        false)

/-- netlify/functions/generate-recipe.ts `handler`, parameterised by the
credential environment variable and the generation outcome.  Returns the
response paired with whether the generation call was invoked. -/
def netlifyGenRecipe (apiKey : Option Str) (event : HttpEvent) (gen : GenOutcome) :
    HttpResponse × Bool :=
  if event.httpMethod = ("OPTIONS".toList) then (⟨204, []⟩, false)
  else if event.httpMethod = ("POST".toList) then
    if credentialMissing apiKey then
      (⟨500, jsonWrite (.obj [(("error".toList),
        .str ("GEMINI_API_KEY is not set".toList))])⟩, false)
    else
      match netlifyGenTry event gen with
      | (.ok (code, j), inv) => (⟨code, jsonWrite j⟩, inv)
      | (.error e, inv) =>
        let res := netlifyGenCatch e
        (⟨res.1, jsonWrite res.2⟩, inv)
  else
    (⟨405, jsonWrite (.obj [(("error".toList), .str ("Method not allowed".toList))])⟩, false)

/-! ### netlify/functions/analyze-image.ts -/

/-- One uploaded file: buffered bytes plus declared mime type. -/
structure ImgEntry where
  buffer : List Nat
  mimeType : Str

/-- The form produced by `parseMultipart`: the files collected under the field
name `image`, and the scalar fields. -/
structure ParsedForm where
  image : List ImgEntry
  language : Option Str
  cuisineType : Option Str

/-- The fixed replacement message of netlify/functions/analyze-image.ts
line 177. -/
def analyzeKeyFixedMsg : Str :=
  ("API key issue. Check Google AI Studio and Netlify GEMINI_API_KEY, then redeploy.").toList

/-- The fixed timeout message of netlify/functions/analyze-image.ts line 180. -/
def analyzeTimeoutMsg : Str :=
  ("Request took too long. Try a smaller image or try again.").toList

/-- The credential-keyword rewrite of netlify/functions/analyze-image.ts
line 176: the five generate-recipe keywords plus `referer`. -/
def analyzeKeywordRewrite (m : Str) : Str :=
  if jsIncludes m ("expired".toList) || jsIncludes m ("renew".toList)
      || jsIncludes m ("leaked".toList) || jsIncludes m ("API key".toList)
      || jsIncludes m ("INVALID".toList) || jsIncludes m ("referer".toList) then
    analyzeKeyFixedMsg
  else m

/-- The timeout rewrite of netlify/functions/analyze-image.ts line 179,
applied after the credential rewrite. -/
def analyzeTimeoutRewrite (m : Str) : Str :=
  if jsIncludes m ("timed out".toList) || jsIncludes m ("Timeout".toList)
      || jsIncludes m ("Sandbox".toList) then
    analyzeTimeoutMsg
  else m

/-- The catch block of the netlify analyze-image handler (lines 166-184). -/
def netlifyAnalyzeCatch (e : JsError) : Nat × Jval :=
  let raw := match e.message with
    | some m => m
    | none => strErrFallback
  let msg := analyzeTimeoutRewrite (analyzeKeywordRewrite (innerMessage raw))
  (500, .obj [(("error".toList), .str msg)])

/-- The try block of the netlify analyze-image handler (lines 124-165),
parameterised by the outcomes of the external multipart decode (busboy), the
external re-encode (sharp) and the generation call. -/
def netlifyAnalyzeTry (mp : Except JsError ParsedForm)
    (resize : Except JsError (List Nat)) (gen : GenOutcome) :
    Except JsError (Nat × Jval) × Bool :=
  match mp with
  | .error e => (.error e, false)
  | .ok parsed =>
    match parsed.image.head? with
    | none =>
      (.ok (400, .obj [(("error".toList), .str ("No image uploaded".toList))]), false)
    | some _ =>
      match resize with
      | .error e => (.error e, false)
      | .ok _ =>
        match gen with
        | .err e => (.error e, true)
        | .ok text =>
          match text with
          | none => (.ok (200, .obj []), true)
          | some t =>
            if t.isEmpty then (.ok (200, .obj []), true)
            else
              match jsonParse t with
              | some data => (.ok (200, data), true)
              | none => (.error ⟨none, some jsonSyntaxErrMsg⟩, true)

/-- netlify/functions/analyze-image.ts `handler`. -/
def netlifyAnalyzeImage (apiKey : Option Str) (event : HttpEvent)
    (mp : Except JsError ParsedForm) (resize : Except JsError (List Nat))
    (gen : GenOutcome) : HttpResponse × Bool :=
  if event.httpMethod = ("OPTIONS".toList) then (⟨204, []⟩, false)
  else if event.httpMethod = ("POST".toList) then
    if credentialMissing apiKey then
      (⟨500, jsonWrite (.obj [(("error".toList),
        .str ("GEMINI_API_KEY is not set".toList))])⟩, false)
    else
      match netlifyAnalyzeTry mp resize gen with
      | (.ok (code, j), inv) => (⟨code, jsonWrite j⟩, inv)
      | (.error e, inv) =>
        let res := netlifyAnalyzeCatch e
        (⟨res.1, jsonWrite res.2⟩, inv)
  else
    (⟨405, jsonWrite (.obj [(("error".toList), .str ("Method not allowed".toList))])⟩, false)

/-! ### The express handlers (server.ts and the blob-upload variant) -/

/-- The quota test of the express catch blocks:
`error.status === 429 || error.message?.includes("429") || error.message?.includes("quota")`. -/
def expressQuotaSignal (e : JsError) : Bool :=
  e.status = some 429 ||
    (match e.message with
     | some m => jsIncludes m ("429".toList) || jsIncludes m ("quota".toList)
     | none => false)

/-- Numeric value of a digit run. -/
def digitsToNat (ds : Str) : Nat := ds.foldl (fun a c => 10 * a + (c.toNat - 48)) 0

/-- The capture of `/retry in (\d+(\.\d+)?)s/` at one position: the integer
digits and the optional fraction digits, provided the literal `s` follows. -/
def matchNumAt (s : Str) : Option (Str × Option Str) :=
  let p := digitsTake s
  if p.1.isEmpty then none
  else if p.2.head? = some '.' then
    (let q := digitsTake p.2.tail
     if q.1.isEmpty then none
     else if q.2.head? = some 's' then some (p.1, some q.1) else none)
  else if p.2.head? = some 's' then some (p.1, none)
  else none

/-- The literal part of the retry regex. -/
def retryInPat : Str := ("retry in ").toList

/-- Leftmost match of `/retry in (\d+(\.\d+)?)s/` over the provider text. -/
def findRetry : Str → Option (Str × Option Str)
  | [] => none
  | c :: cs =>
    if strStartsWith (c :: cs) retryInPat then
      match matchNumAt ((c :: cs).drop 9) with
      | some m => some m
      | none => findRetry cs
    else findRetry cs

/-- `parseFloat` of the captured number, idealised as the exact rational the
literal denotes. -/
def capturedValQ (d : Str) (fr : Option Str) : ℚ :=
  (digitsToNat d : ℚ) +
    (match fr with
     | none => 0
     | some f => (digitsToNat f : ℚ) / (10 : ℚ) ^ f.length)

/-- `Math.ceil(parseFloat(retryMatch[1]))` when the regex matches, else the
60-second default (part_000 lines 287-291, 365-369, 457-461). -/
def quotaRetrySeconds (msg : Option Str) : Int :=
  match msg with
  | none => 60
  | some m =>
    match findRetry m with
    | some (d, fr) => ⌈capturedValQ d fr⌉
    | none => 60

/-- The Arabic quota user message, with the retry seconds interpolated. -/
def quotaArMsg (r : Int) : Str :=
  ("لقد استنفدت حصتك اليومية من الطلبات (20 طلب). يرجى الانتظار ").toList
    ++ (toString r).toList ++ (" ثانية أو العودة غداً.").toList

/-- The English quota user message, with the retry seconds interpolated. -/
def quotaEnMsg (r : Int) : Str :=
  ("You\x27ve exceeded your daily quota (20 requests). Please wait ").toList
    ++ (toString r).toList ++ (" seconds or try again tomorrow.").toList

/-- The quota-aware catch of the part_000 express routes (lines 448-475 for
generate-recipe; the analyze-image routes are identical): a 429 with the full
quota body on a quota signal, a plain 500 otherwise.  An absent message leaves
the `message`/`error` property undefined, which `JSON.stringify` drops. -/
def expressQuotaCatch (e : JsError) : Nat × Jval :=
  if expressQuotaSignal e then
    let r := quotaRetrySeconds e.message
    (429, .obj ([(("error".toList), Jval.str ("QUOTA_EXCEEDED".toList))]
      ++ (match e.message with
          | some m => [(("message".toList), Jval.str m)]
          | none => [])
      ++ [(("retryAfter".toList), Jval.num ((toString r).toList)),
          (("userMessage".toList), Jval.obj
            [(("ar".toList), Jval.str (quotaArMsg r)),
             (("en".toList), Jval.str (quotaEnMsg r))])]))
  else
    (500, .obj (match e.message with
      | some m => [(("error".toList), Jval.str m)]
      | none => []))

/-- The try block of the express generate-recipe route (server.ts lines 69-91,
part_000 lines 430-447): no ingredient validation at all —
`ingredients.join(", ")` throws a TypeError unless `ingredients` is an array,
and `JSON.parse(response.text || "{}")` is returned with status 200. -/
def expressGenTry (body : Jval) (gen : GenOutcome) : Except JsError (Nat × Jval) × Bool :=
  match jProp body ("ingredients".toList) with
  | some (.arr _) =>
    (match gen with
     | .err e => (.error e, true)
     | .ok text =>
       let t := match text with
         | none => ("{}".toList)
         | some t0 => if t0.isEmpty then ("{}".toList) else t0
       match jsonParse t with
       | some data => (.ok (200, data), true)
       | none => (.error ⟨none, some jsonSyntaxErrMsg⟩, true))
  | _ =>
    (.error ⟨none, some ("ingredients.join is not a function".toList)⟩, false)

/-- server.ts `/api/generate-recipe`: the try block with the plain 500 catch
(`res.status(500).json({error: error.message})`). -/
def serverGenRecipe (body : Jval) (gen : GenOutcome) : (Nat × Jval) × Bool :=
  match expressGenTry body gen with
  | (.ok res, inv) => (res, inv)
  | (.error e, inv) =>
    ((500, .obj (match e.message with
       | some m => [(("error".toList), Jval.str m)]
       | none => [])), inv)

/-- part_000 `/api/generate-recipe`: the same try block with the quota-aware
catch. -/
def blobServerGenRecipe (body : Jval) (gen : GenOutcome) : (Nat × Jval) × Bool :=
  match expressGenTry body gen with
  | (.ok res, inv) => (res, inv)
  | (.error e, inv) => (expressQuotaCatch e, inv)

/-! ### api/generate-recipe.ts (the repair handler) -/

/-- ASCII JavaScript whitespace (the `\s` characters arising here). -/
def jsWsCh (c : Char) : Bool :=
  c = ' ' || c = '\t' || c = '\n' || c = '\r' || c = Char.ofNat 11 || c = Char.ofNat 12

/-- `.replace(/^\s*` ++ "```" ++ `json\s*/, "")` of api/generate-recipe.ts
line 114: strip one leading code-fence marker with its surrounding whitespace. -/
def stripFenceHead (s : Str) : Str :=
  let r := s.dropWhile jsWsCh
  if strStartsWith r (("```json").toList) then (r.drop 7).dropWhile jsWsCh
  else s

/-- `.replace(/\s*` ++ "```" ++ `$/, "")` of line 115: strip one trailing
code-fence marker with the whitespace run before it. -/
def stripFenceTail (s : Str) : Str :=
  let rev := s.reverse
  if strStartsWith rev (("```").toList) then ((rev.drop 3).dropWhile jsWsCh).reverse
  else s

/-- `.trim()`. -/
def jsTrim (s : Str) : Str := ((s.dropWhile jsWsCh).reverse.dropWhile jsWsCh).reverse

/-- ResponseRepair of api/generate-recipe.ts lines 108-118: a direct
`JSON.parse` first, and only on its failure the fence-stripped, trimmed
re-parse. -/
def repairParse (s : Str) : Option Jval :=
  match jsonParse s with
  | some v => some v
  | none => jsonParse (jsTrim (stripFenceTail (stripFenceHead s)))

/-- api/generate-recipe.ts default handler: method checks, credential check,
JSON body decode (`rawBody || "{}"`), destructure, ingredients validation, one
generation call, repair, and the catch with its key/API keyword check.  The
destructure of line 67 sits outside every try/catch, so a parsed body of JSON
null throws an uncaught TypeError and the handler's promise rejects without a
response: that path is `none`; every answered request is `some`. -/
def apiGenRecipe (apiKey : Option Str) (method : Str) (rawBody : Str) (gen : GenOutcome) :
    Option (HttpResponse × Bool) :=
  if method = ("OPTIONS".toList) then some (⟨204, []⟩, false)
  else if method = ("POST".toList) then
    if credentialMissing apiKey then
      some (⟨500, jsonWrite (.obj [(("error".toList),
        .str ("GEMINI_API_KEY is not set in Vercel Environment Variables".toList))])⟩, false)
    else
      match jsonParse (if rawBody.isEmpty then ("{}".toList) else rawBody) with
      | none =>
        some (⟨400, jsonWrite (.obj [(("error".toList),
          .str ("Invalid JSON in request body".toList))])⟩, false)
      | some body =>
        if isNullVal body then none
        else match jProp body ("ingredients".toList) with
        | some (.arr xs) =>
          if xs.isEmpty then
            some (⟨400, jsonWrite (.obj [(("error".toList),
              .str ("ingredients array is required and must not be empty".toList))])⟩, false)
          else
            (match gen with
             | .err e =>
               let raw := match e.message with
                 | some m => m
                 | none => ("Failed to generate recipe".toList)
               let msg :=
                 if jsIncludes raw ("key".toList) || jsIncludes raw ("API".toList) then
                   ("Invalid or missing GEMINI_API_KEY. Check Vercel → Settings → Environment Variables.".toList)
                 else raw
               some (⟨500, jsonWrite (.obj [(("error".toList), .str msg)])⟩, true)
             | .ok text =>
               let t := match text with
                 | none => ([] : Str)
                 | some t0 => t0
               match repairParse t with
               | some recipe => some (⟨200, jsonWrite recipe⟩, true)
               | none =>
                 some (⟨500, jsonWrite (.obj [(("error".toList), .str jsonSyntaxErrMsg)])⟩, true))
        | _ =>
          some (⟨400, jsonWrite (.obj [(("error".toList),
            .str ("ingredients array is required and must not be empty".toList))])⟩, false)
  else
    some (⟨405, jsonWrite (.obj [(("error".toList),
      .str ("Method not allowed. Use POST.".toList))])⟩, false)

/-! ### Image normalisation geometry and the per-handler constants -/

/-- Division rounding half up. -/
def roundDiv (a b : Nat) : Nat := (2 * a + b) / (2 * b)

/-- Modelled from the spec: the resize geometry of the sharp call
(`fit: "inside"`, `withoutEnlargement: true`) used by both analyze-image
handlers — scale so neither edge exceeds the bound, preserve the aspect ratio
by rounding the exactly scaled other edge, never upscale an image already
within bounds, and never emit a zero dimension.  sharp itself is an external
native library whose code is not part of this repository. -/
def fitInside (bound w h : Nat) : Nat × Nat :=
  if w ≤ bound ∧ h ≤ bound then (w, h)
  else if h ≤ w then (bound, max 1 (roundDiv (h * bound) w))
  else (max 1 (roundDiv (w * bound) h), bound)

/-- `MAX_EDGE` of netlify/functions/analyze-image.ts line 135. -/
def netlifyAnalyzeMaxEdge : Nat := 800

/-- The JPEG quality of netlify/functions/analyze-image.ts line 138. -/
def netlifyAnalyzeJpegQuality : Nat := 82

/-- `MAX_EDGE` of api/analyze-image.ts line 154. -/
def apiAnalyzeMaxEdge : Nat := 768

/-- The JPEG quality of api/analyze-image.ts line 157. -/
def apiAnalyzeJpegQuality : Nat := 75

/-! ### The Recipe schema -/

/-- The `required` list of `RECIPE_SCHEMA` (identical in every handler). -/
def requiredRecipeFields : List Str :=
  [("recipeName".toList), ("origin".toList), ("cuisineType".toList), ("prepTime".toList),
   ("cookTime".toList), ("difficulty".toList), ("ingredients".toList), ("instructions".toList)]

/-- A parsed value is an object carrying every required Recipe field. -/
def hasAllRequired (j : Jval) : Bool :=
  match j with
  | .obj ps => requiredRecipeFields.all (fun k => (jLookup ps k).isSome)
  | _ => false

/-- A non-empty JSON string. -/
def isNonEmptyStr : Jval → Bool
  | .str s => !s.isEmpty
  | _ => false

/-- A non-empty JSON array of strings. -/
def isNonEmptyStrArr : Jval → Bool
  | .arr xs => !xs.isEmpty && xs.all (fun x => match x with | .str _ => true | _ => false)
  | _ => false

/-- Recipe fields typed array-of-string by §3. -/
def isArrField (k : Str) : Bool :=
  k = ("ingredients".toList) || k = ("instructions".toList)
    || k = ("detectedIngredients".toList)

/-- Recipe fields typed string by §3. -/
def isStrField (k : Str) : Bool :=
  k = ("recipeName".toList) || k = ("origin".toList) || k = ("cuisineType".toList)
    || k = ("prepTime".toList) || k = ("cookTime".toList) || k = ("difficulty".toList)
    || k = ("chefTips".toList)

/-- One Recipe field is well-typed. -/
def recipeFieldOk (k : Str) (v : Jval) : Bool :=
  (isArrField k && isNonEmptyStrArr v) || (isStrField k && isNonEmptyStr v)

/-- The §3 Recipe invariants: an object with every required field present and
every present field well-typed. -/
def recipeValue (j : Jval) : Bool :=
  match j with
  | .obj ps => hasAllRequired j && ps.all (fun p => recipeFieldOk p.1 p.2)
  | _ => false


/-! ### Supporting lemmas for the claim theorems -/

/-- A generation-call argument: `nonEmptyArray` is the check
`Array.isArray(x) && x.length > 0` the netlify handler performs. -/
def nonEmptyArray : Option Jval → Bool
  | some (.arr xs) => !xs.isEmpty
  | _ => false

/-- `Array.isArray`. -/
def isArrayVal : Option Jval → Bool
  | some (.arr _) => true
  | _ => false

/-- A value with a defined property is not JSON null, so the destructure of
the generate-recipe handlers does not throw on it. -/
theorem isNullVal_false_of_jProp {body : Jval} {k : Str} {v : Jval}
    (h : jProp body k = some v) : isNullVal body = false := by
  cases body <;> simp_all [jProp, isNullVal]

theorem netlifyGenTry_codes (event : HttpEvent) (gen : GenOutcome) :
    ∀ code j inv, netlifyGenTry event gen = (.ok (code, j), inv) →
      code = 400 ∨ code = 200 := by
  intro code j inv h
  unfold netlifyGenTry at h
  repeat' split at h
  all_goals
    try simp only [show jsonParse ['\x7b', '\x7d'] = some (Jval.obj []) from rfl,
      jProp, jLookup] at h
  repeat' split at h
  all_goals simp_all

theorem netlifyAnalyzeTry_codes (mp : Except JsError ParsedForm)
    (resize : Except JsError (List Nat)) (gen : GenOutcome) :
    ∀ code j inv, netlifyAnalyzeTry mp resize gen = (.ok (code, j), inv) →
      code = 400 ∨ code = 200 := by
  intro code j inv h
  unfold netlifyAnalyzeTry at h
  repeat' split at h
  all_goals simp_all

/-! ### Claim theorems -/

/-- Claim C1, counterexample: a valid POST whose generation call returns no
text is answered 200 with the empty object, although the empty object is
missing every required Recipe field — the pipeline does not treat this as a
repair failure and does not return an error report. -/
theorem c1_counterexample :
    netlifyGenRecipe (some ("k".toList))
        ⟨("POST".toList),
         some (jsonWrite (Jval.obj [(("ingredients".toList), Jval.arr [Jval.str ("rice".toList)])]))⟩
        (GenOutcome.ok none)
      = (⟨200, jsonWrite (Jval.obj [])⟩, true)
    ∧ hasAllRequired (Jval.obj []) = false
    ∧ (200 : Nat) ≠ 500 := by
  refine ⟨rfl, rfl, by decide⟩

/-- Claim C1, amended: the netlify generate-recipe handler performs no
required-field validation at all.  On a valid POST (credential set, parseable
body, non-empty ingredients array), whatever JSON value the generation text
parses to is returned verbatim with status 200 — whether or not it carries the
required Recipe fields — and absent text yields 200 with the empty object.
Only a `JSON.parse` failure reaches the error path. -/
theorem c1_no_validation (apiKey : Option Str) (event : HttpEvent) (bs : Str) (body : Jval)
    (xs : List Jval) (t : Str) (v : Jval)
    (hk : credentialMissing apiKey = false)
    (hm : event.httpMethod = ("POST".toList))
    (hb : event.body = some bs) (hbe : bs.isEmpty = false)
    (hparse : jsonParse bs = some body)
    (hing : jProp body ("ingredients".toList) = some (Jval.arr xs))
    (hxs : xs.isEmpty = false)
    (ht : t.isEmpty = false) (hv : jsonParse t = some v) :
    netlifyGenRecipe apiKey event (GenOutcome.ok (some t)) = (⟨200, jsonWrite v⟩, true)
    ∧ netlifyGenRecipe apiKey event (GenOutcome.ok none)
        = (⟨200, jsonWrite (Jval.obj [])⟩, true) := by
  have hnn : isNullVal body = false := isNullVal_false_of_jProp hing
  constructor <;> simp_all [netlifyGenRecipe, netlifyGenTry]

/-- Claim C1 witness: the amended theorem applied at a concrete request whose
generation text is an object carrying only `recipeName`. -/
theorem c1_no_validation_witness :
    netlifyGenRecipe (some ("k".toList))
        ⟨("POST".toList),
         some (jsonWrite (Jval.obj [(("ingredients".toList), Jval.arr [Jval.str ("rice".toList)])]))⟩
        (GenOutcome.ok (some (jsonWrite (Jval.obj [(("recipeName".toList), Jval.str ("x".toList))]))))
      = (⟨200, jsonWrite (Jval.obj [(("recipeName".toList), Jval.str ("x".toList))])⟩, true)
    ∧ netlifyGenRecipe (some ("k".toList))
        ⟨("POST".toList),
         some (jsonWrite (Jval.obj [(("ingredients".toList), Jval.arr [Jval.str ("rice".toList)])]))⟩
        (GenOutcome.ok none)
      = (⟨200, jsonWrite (Jval.obj [])⟩, true) :=
  c1_no_validation (some ("k".toList)) _ _
    (Jval.obj [(("ingredients".toList), Jval.arr [Jval.str ("rice".toList)])])
    [Jval.str ("rice".toList)] _ (Jval.obj [(("recipeName".toList), Jval.str ("x".toList))])
    rfl rfl rfl rfl rfl rfl rfl rfl rfl

/-- Claim C3, counterexample: a provider failure carrying the full quota signal
(status 429 and a quota message) still terminates with HTTP 500 in the netlify
generate-recipe handler, which has no quota branch — not with the claimed 429
body. -/
theorem c3_counterexample :
    (netlifyGenRecipe (some ("k".toList))
        ⟨("POST".toList),
         some (jsonWrite (Jval.obj [(("ingredients".toList), Jval.arr [Jval.str ("rice".toList)])]))⟩
        (GenOutcome.err ⟨some 429, some ("You exceeded your quota, retry in 5s".toList)⟩)).1.statusCode
      = 500
    ∧ expressQuotaSignal ⟨some 429, some ("You exceeded your quota, retry in 5s".toList)⟩ = true
    ∧ (500 : Nat) ≠ 429 := by
  refine ⟨rfl, rfl, by decide⟩

/-- Claim C3, amended: the quota contract holds for the express routes of the
blob-upload server variant (their shared catch block): on a quota signal with a
message present, the terminal response is a 429 whose body carries
`error = "QUOTA_EXCEEDED"`, the provider message, a `retryAfter` number and a
`userMessage` object with `ar` and `en` entries.  The netlify function
handlers, by contrast, answer 500 to every thrown error. -/
theorem c3_quota_response (e : JsError) (m : Str)
    (hm : e.message = some m) (hq : expressQuotaSignal e = true) :
    expressQuotaCatch e
      = (429, Jval.obj
          [(("error".toList), Jval.str ("QUOTA_EXCEEDED".toList)),
           (("message".toList), Jval.str m),
           (("retryAfter".toList), Jval.num ((toString (quotaRetrySeconds (some m))).toList)),
           (("userMessage".toList), Jval.obj
             [(("ar".toList), Jval.str (quotaArMsg (quotaRetrySeconds (some m)))),
              (("en".toList), Jval.str (quotaEnMsg (quotaRetrySeconds (some m))))])])
    ∧ (∀ e2 : JsError, (netlifyGenCatch e2).1 = 500)
    ∧ (∀ e2 : JsError, (netlifyAnalyzeCatch e2).1 = 500) := by
  refine ⟨?_, fun e2 => rfl, fun e2 => rfl⟩
  simp [expressQuotaCatch, hq, hm]

/-- Claim C3 witness: the amended theorem applied to a concrete quota error. -/
theorem c3_quota_response_witness :
    expressQuotaCatch ⟨some 429, some ("quota, retry in 2s".toList)⟩
      = (429, Jval.obj
          [(("error".toList), Jval.str ("QUOTA_EXCEEDED".toList)),
           (("message".toList), Jval.str ("quota, retry in 2s".toList)),
           (("retryAfter".toList),
            Jval.num ((toString (quotaRetrySeconds (some ("quota, retry in 2s".toList)))).toList)),
           (("userMessage".toList), Jval.obj
             [(("ar".toList),
               Jval.str (quotaArMsg (quotaRetrySeconds (some ("quota, retry in 2s".toList))))),
              (("en".toList),
               Jval.str (quotaEnMsg (quotaRetrySeconds (some ("quota, retry in 2s".toList)))))])])
    ∧ (∀ e2 : JsError, (netlifyGenCatch e2).1 = 500)
    ∧ (∀ e2 : JsError, (netlifyAnalyzeCatch e2).1 = 500) :=
  c3_quota_response ⟨some 429, some ("quota, retry in 2s".toList)⟩ _ rfl rfl

/-- Claim C4 — confirmed for the two netlify function handlers it names: when
no credential is configured (unset or empty), every POST is answered with the
constant 500 error response, the response does not depend on the request body,
the multipart or resize outcomes, or the generation oracle (so the check
precedes request parsing and every other stage), and the generation call is
never invoked (second component `false`). -/
theorem c4_missing_credential (apiKey : Option Str) (event : HttpEvent) (gen : GenOutcome)
    (mp : Except JsError ParsedForm) (resize : Except JsError (List Nat))
    (hk : credentialMissing apiKey = true)
    (hm : event.httpMethod = ("POST".toList)) :
    netlifyGenRecipe apiKey event gen
      = (⟨500, jsonWrite (Jval.obj [(("error".toList),
          Jval.str ("GEMINI_API_KEY is not set".toList))])⟩, false)
    ∧ netlifyAnalyzeImage apiKey event mp resize gen
      = (⟨500, jsonWrite (Jval.obj [(("error".toList),
          Jval.str ("GEMINI_API_KEY is not set".toList))])⟩, false) := by
  constructor <;> simp [netlifyGenRecipe, netlifyAnalyzeImage, hm, hk]

/-- Claim C4 witness: a POST with a malformed body and a crashing oracle still
gets the constant 500 missing-credential response from both handlers. -/
theorem c4_missing_credential_witness :
    netlifyGenRecipe none ⟨("POST".toList), some ("\x7b".toList)⟩
        (GenOutcome.err ⟨none, none⟩)
      = (⟨500, jsonWrite (Jval.obj [(("error".toList),
          Jval.str ("GEMINI_API_KEY is not set".toList))])⟩, false)
    ∧ netlifyAnalyzeImage none ⟨("POST".toList), some ("\x7b".toList)⟩
        (.error ⟨none, some ("busboy broke".toList)⟩) (.error ⟨none, none⟩)
        (GenOutcome.err ⟨none, none⟩)
      = (⟨500, jsonWrite (Jval.obj [(("error".toList),
          Jval.str ("GEMINI_API_KEY is not set".toList))])⟩, false) :=
  c4_missing_credential none ⟨("POST".toList), some ("\x7b".toList)⟩
    (GenOutcome.err ⟨none, none⟩) (.error ⟨none, some ("busboy broke".toList)⟩)
    (.error ⟨none, none⟩) rfl rfl

/-- Claim C6, counterexample: the api/analyze-image.ts variant re-encodes with
edge bound 768 at quality 75, not the claimed system defaults E = 800 and
Q = 82; a 1600 × 1200 input is resized to 768 × 576 there instead of the
800 × 600 the claim implies. -/
theorem c6_counterexample :
    fitInside apiAnalyzeMaxEdge 1600 1200 = (768, 576)
    ∧ fitInside netlifyAnalyzeMaxEdge 1600 1200 = (800, 600)
    ∧ ¬ (apiAnalyzeMaxEdge = 800 ∧ apiAnalyzeJpegQuality = 82) := by
  refine ⟨rfl, rfl, by decide⟩

/-- Claim C6, amended: for every decoded image the resize geometry keeps both
edges within the bound, never upscales an image already within bounds, and
preserves the aspect ratio up to half-pixel rounding (the scaled edge times the
long side differs from the exact product by at most half the long side); the
netlify function uses E = 800 with quality 82 while the api variant uses
E = 768 with quality 75, in a fixed lossy codec (JPEG). -/
theorem c6_normalizer_geometry (bound w h : Nat)
    (hb : 0 < bound) (hw : 0 < w) (hh : 0 < h) :
    ((fitInside bound w h).1 ≤ bound ∧ (fitInside bound w h).2 ≤ bound)
    ∧ (w ≤ bound → h ≤ bound → fitInside bound w h = (w, h))
    ∧ (¬ (w ≤ bound ∧ h ≤ bound) → h ≤ w →
        fitInside bound w h = (bound, max 1 (roundDiv (h * bound) w))
        ∧ 2 * (roundDiv (h * bound) w) * w ≤ 2 * (h * bound) + w
        ∧ 2 * (h * bound) ≤ 2 * (roundDiv (h * bound) w) * w + w)
    ∧ (¬ (w ≤ bound ∧ h ≤ bound) → w < h →
        fitInside bound w h = (max 1 (roundDiv (w * bound) h), bound)
        ∧ 2 * (roundDiv (w * bound) h) * h ≤ 2 * (w * bound) + h
        ∧ 2 * (w * bound) ≤ 2 * (roundDiv (w * bound) h) * h + h)
    ∧ netlifyAnalyzeMaxEdge = 800 ∧ netlifyAnalyzeJpegQuality = 82
    ∧ apiAnalyzeMaxEdge = 768 ∧ apiAnalyzeJpegQuality = 75 := by
  have hdiv : ∀ a b : Nat, 0 < b →
      2 * (roundDiv a b) * b ≤ 2 * a + b ∧ 2 * a ≤ 2 * (roundDiv a b) * b + b := by
    intro a b hbpos
    have hdm := Nat.div_add_mod (2 * a + b) (2 * b)
    have hmod : (2 * a + b) % (2 * b) < 2 * b := Nat.mod_lt _ (by omega)
    unfold roundDiv
    have hc : 2 * ((2 * a + b) / (2 * b)) * b = 2 * b * ((2 * a + b) / (2 * b)) := by ring
    rw [hc]
    omega
  have hround_le : ∀ a b : Nat, 0 < b → a ≤ b * bound → roundDiv a b ≤ bound := by
    intro a b hbpos hab
    have hlt : (2 * a + b) / (2 * b) < bound + 1 := by
      rw [Nat.div_lt_iff_lt_mul (by omega : 0 < 2 * b)]
      nlinarith
    unfold roundDiv
    omega
  refine ⟨?_, ?_, ?_, ?_, rfl, rfl, rfl, rfl⟩
  · by_cases hin : w ≤ bound ∧ h ≤ bound
    · simp [fitInside, hin]
    · by_cases hhw : h ≤ w
      · have hwb : bound < w := by
          rcases Nat.lt_or_ge bound w with hlt | hge
          · exact hlt
          · exact absurd ⟨hge, le_trans hhw hge⟩ hin
        have hr : roundDiv (h * bound) w ≤ bound :=
          hround_le (h * bound) w hw (by nlinarith)
        simp [fitInside, hin, hhw]
        omega
      · have hhb : bound < h := by
          rcases Nat.lt_or_ge bound h with hlt | hge
          · exact hlt
          · exact absurd ⟨le_trans (le_of_not_le hhw) hge, hge⟩ hin
        have hr : roundDiv (w * bound) h ≤ bound :=
          hround_le (w * bound) h hh (by nlinarith [le_of_not_le hhw])
        simp [fitInside, hin, hhw]
        omega
  · intro h1 h2
    simp [fitInside, h1, h2]
  · intro hin hhw
    refine ⟨by simp [fitInside, hin, hhw], (hdiv (h * bound) w hw).1, (hdiv (h * bound) w hw).2⟩
  · intro hin hhw
    have : ¬ h ≤ w := by omega
    refine ⟨by simp [fitInside, hin, this], (hdiv (w * bound) h hh).1, (hdiv (w * bound) h hh).2⟩

/-- Claim C6 witness: the geometry theorem applied to a 1600 × 1200 image under
the netlify bound. -/
theorem c6_normalizer_geometry_witness :
    ((fitInside 800 1600 1200).1 ≤ 800 ∧ (fitInside 800 1600 1200).2 ≤ 800)
    ∧ ((1600 : Nat) ≤ 800 → (1200 : Nat) ≤ 800 → fitInside 800 1600 1200 = (1600, 1200))
    ∧ (¬ ((1600 : Nat) ≤ 800 ∧ (1200 : Nat) ≤ 800) → (1200 : Nat) ≤ 1600 →
        fitInside 800 1600 1200 = (800, max 1 (roundDiv (1200 * 800) 1600))
        ∧ 2 * (roundDiv (1200 * 800) 1600) * 1600 ≤ 2 * (1200 * 800) + 1600
        ∧ 2 * (1200 * 800) ≤ 2 * (roundDiv (1200 * 800) 1600) * 1600 + 1600)
    ∧ (¬ ((1600 : Nat) ≤ 800 ∧ (1200 : Nat) ≤ 800) → (1600 : Nat) < 1200 →
        fitInside 800 1600 1200 = (max 1 (roundDiv (1600 * 800) 1200), 800)
        ∧ 2 * (roundDiv (1600 * 800) 1200) * 1200 ≤ 2 * (1600 * 800) + 1200
        ∧ 2 * (1600 * 800) ≤ 2 * (roundDiv (1600 * 800) 1200) * 1200 + 1200)
    ∧ netlifyAnalyzeMaxEdge = 800 ∧ netlifyAnalyzeJpegQuality = 82
    ∧ apiAnalyzeMaxEdge = 768 ∧ apiAnalyzeJpegQuality = 75 :=
  c6_normalizer_geometry 800 1600 1200 (by decide) (by decide) (by decide)

/-- Claim C7, counterexample: the express generate-recipe route of server.ts
performs no ingredient validation — a request with an empty ingredients array
invokes the generation call (second component `true`) and is answered 200, not
the claimed 400-without-invocation. -/
theorem c7_counterexample :
    (serverGenRecipe (Jval.obj [(("ingredients".toList), Jval.arr [])])
        (GenOutcome.ok (some (jsonWrite (Jval.obj []))))).2 = true
    ∧ (serverGenRecipe (Jval.obj [(("ingredients".toList), Jval.arr [])])
        (GenOutcome.ok (some (jsonWrite (Jval.obj []))))).1.1 = 200 := by
  refine ⟨rfl, rfl⟩

/-- Claim C7, amended: the netlify handlers satisfy the claim for every parsed
non-null body — a POST body without a non-empty ingredients array gets a 400
without invoking the generation call, and a multipart form without an image
gets a 400 without invoking it — while a parsed body of JSON null throws a
TypeError at the destructure inside the try and is answered 500, still without
invoking the call.  The express server.ts route instead performs no
validation: a missing or non-array ingredients value throws (500, no
invocation) and an empty array proceeds to the generation call (see the
counterexample). -/
theorem c7_invalid_request (apiKey : Option Str) (event : HttpEvent) (gen : GenOutcome)
    (bs : Str) (body : Jval)
    (hk : credentialMissing apiKey = false)
    (hm : event.httpMethod = ("POST".toList))
    (hb : event.body = some bs) (hbe : bs.isEmpty = false)
    (hparse : jsonParse bs = some body) :
    (isNullVal body = false →
      nonEmptyArray (jProp body ("ingredients".toList)) = false →
      netlifyGenRecipe apiKey event gen
        = (⟨400, jsonWrite (Jval.obj [(("error".toList),
            Jval.str ("ingredients array is required".toList))])⟩, false))
    ∧ (isNullVal body = true →
        (netlifyGenRecipe apiKey event gen).1.statusCode = 500
        ∧ (netlifyGenRecipe apiKey event gen).2 = false)
    ∧ (∀ (form : ParsedForm) (resize : Except JsError (List Nat)),
        form.image = [] →
        netlifyAnalyzeImage apiKey event (.ok form) resize gen
          = (⟨400, jsonWrite (Jval.obj [(("error".toList),
              Jval.str ("No image uploaded".toList))])⟩, false))
    ∧ (isArrayVal (jProp body ("ingredients".toList)) = false →
        (serverGenRecipe body gen).1.1 = 500 ∧ (serverGenRecipe body gen).2 = false) := by
  refine ⟨?_, ?_, ?_, ?_⟩
  · intro hnn hne
    cases hing : jProp body ("ingredients".toList) with
    | none =>
      simp_all [netlifyGenRecipe, netlifyGenTry]
    | some iv =>
      cases iv with
      | arr xs =>
        rw [hing] at hne
        simp only [nonEmptyArray, Bool.not_eq_false'] at hne
        simp_all [netlifyGenRecipe, netlifyGenTry]
      | null => simp_all [netlifyGenRecipe, netlifyGenTry]
      | bool b => simp_all [netlifyGenRecipe, netlifyGenTry]
      | num raw => simp_all [netlifyGenRecipe, netlifyGenTry]
      | str s => simp_all [netlifyGenRecipe, netlifyGenTry]
      | obj ps => simp_all [netlifyGenRecipe, netlifyGenTry]
  · intro hnull
    have hb0 : body = Jval.null := by cases body <;> simp_all [isNullVal]
    subst hb0
    have hc : netlifyGenCatch ⟨none, some destructureNullMsg⟩
        = (500, Jval.obj [(("error".toList), Jval.str destructureNullMsg)]) := rfl
    constructor <;> simp_all [netlifyGenRecipe, netlifyGenTry, hc]
  · intro form resize himg
    simp_all [netlifyAnalyzeImage, netlifyAnalyzeTry]
  · intro harr
    cases hing : jProp body ("ingredients".toList) with
    | none => simp_all [serverGenRecipe, expressGenTry]
    | some iv =>
      cases iv with
      | arr xs => rw [hing] at harr; simp [isArrayVal] at harr
      | null => simp_all [serverGenRecipe, expressGenTry]
      | bool b => simp_all [serverGenRecipe, expressGenTry]
      | num raw => simp_all [serverGenRecipe, expressGenTry]
      | str s => simp_all [serverGenRecipe, expressGenTry]
      | obj ps => simp_all [serverGenRecipe, expressGenTry]

/-- Claim C7 witness: the amended theorem applied to a body whose ingredients
value is a string. -/
theorem c7_invalid_request_witness :
    (isNullVal (Jval.obj [(("ingredients".toList), Jval.str ("x".toList))]) = false →
      nonEmptyArray (jProp (Jval.obj [(("ingredients".toList), Jval.str ("x".toList))])
        ("ingredients".toList)) = false →
      netlifyGenRecipe (some ("k".toList))
          ⟨("POST".toList),
           some (jsonWrite (Jval.obj [(("ingredients".toList), Jval.str ("x".toList))]))⟩
          (GenOutcome.ok none)
        = (⟨400, jsonWrite (Jval.obj [(("error".toList),
            Jval.str ("ingredients array is required".toList))])⟩, false))
    ∧ (isNullVal (Jval.obj [(("ingredients".toList), Jval.str ("x".toList))]) = true →
        (netlifyGenRecipe (some ("k".toList))
            ⟨("POST".toList),
             some (jsonWrite (Jval.obj [(("ingredients".toList), Jval.str ("x".toList))]))⟩
            (GenOutcome.ok none)).1.statusCode = 500
        ∧ (netlifyGenRecipe (some ("k".toList))
            ⟨("POST".toList),
             some (jsonWrite (Jval.obj [(("ingredients".toList), Jval.str ("x".toList))]))⟩
            (GenOutcome.ok none)).2 = false)
    ∧ (∀ (form : ParsedForm) (resize : Except JsError (List Nat)),
        form.image = [] →
        netlifyAnalyzeImage (some ("k".toList))
            ⟨("POST".toList),
             some (jsonWrite (Jval.obj [(("ingredients".toList), Jval.str ("x".toList))]))⟩
            (.ok form) resize (GenOutcome.ok none)
          = (⟨400, jsonWrite (Jval.obj [(("error".toList),
              Jval.str ("No image uploaded".toList))])⟩, false))
    ∧ (isArrayVal (jProp (Jval.obj [(("ingredients".toList), Jval.str ("x".toList))])
          ("ingredients".toList)) = false →
        (serverGenRecipe (Jval.obj [(("ingredients".toList), Jval.str ("x".toList))])
            (GenOutcome.ok none)).1.1 = 500
        ∧ (serverGenRecipe (Jval.obj [(("ingredients".toList), Jval.str ("x".toList))])
            (GenOutcome.ok none)).2 = false) :=
  c7_invalid_request (some ("k".toList))
    ⟨("POST".toList),
     some (jsonWrite (Jval.obj [(("ingredients".toList), Jval.str ("x".toList))]))⟩
    (GenOutcome.ok none) _ (Jval.obj [(("ingredients".toList), Jval.str ("x".toList))])
    rfl rfl rfl rfl rfl

/-- Claim C8, counterexample: a POST with the malformed JSON body `\x7b` is
answered 500 by the netlify generate-recipe handler (its parse failure falls
into the generic catch), not the claimed 400. -/
theorem c8_counterexample :
    (netlifyGenRecipe (some ("k".toList)) ⟨("POST".toList), some ("\x7b".toList)⟩
        (GenOutcome.ok none)).1.statusCode = 500
    ∧ (500 : Nat) ≠ 400 := by
  refine ⟨rfl, by decide⟩

/-- Claim C8, amended: the api/generate-recipe.ts handler does satisfy the
claim — a non-empty body that fails to parse is answered
`400 {error: "Invalid JSON in request body"}` without invoking the generation
call; the netlify handler instead catches the same parse failure in its
generic handler and answers 500 (also without invoking the call). -/
theorem c8_malformed_json (apiKey : Option Str) (raw : Str) (gen : GenOutcome)
    (hk : credentialMissing apiKey = false)
    (hre : raw.isEmpty = false)
    (hp : jsonParse raw = none) :
    apiGenRecipe apiKey ("POST".toList) raw gen
      = some (⟨400, jsonWrite (Jval.obj [(("error".toList),
          Jval.str ("Invalid JSON in request body".toList))])⟩, false)
    ∧ (∀ event : HttpEvent, event.httpMethod = ("POST".toList) → event.body = some raw →
        (netlifyGenRecipe apiKey event gen).1.statusCode = 500
        ∧ (netlifyGenRecipe apiKey event gen).2 = false) := by
  constructor
  · simp [apiGenRecipe, hk, hre, hp]
  · intro event hm hb
    have hcatch : netlifyGenCatch ⟨none, some jsonSyntaxErrMsg⟩
        = (500, Jval.obj [(("error".toList), Jval.str jsonSyntaxErrMsg)]) := rfl
    constructor <;>
      simp [netlifyGenRecipe, netlifyGenTry, hm, hk, hb, hre, hp, hcatch]

/-- Claim C8 witness: the amended theorem at the concrete body `\x7b`. -/
theorem c8_malformed_json_witness :
    apiGenRecipe (some ("k".toList)) ("POST".toList) ("\x7b".toList) (GenOutcome.ok none)
      = some (⟨400, jsonWrite (Jval.obj [(("error".toList),
          Jval.str ("Invalid JSON in request body".toList))])⟩, false)
    ∧ (∀ event : HttpEvent, event.httpMethod = ("POST".toList) →
        event.body = some ("\x7b".toList) →
        (netlifyGenRecipe (some ("k".toList)) event (GenOutcome.ok none)).1.statusCode = 500
        ∧ (netlifyGenRecipe (some ("k".toList)) event (GenOutcome.ok none)).2 = false) :=
  c8_malformed_json (some ("k".toList)) ("\x7b".toList) (GenOutcome.ok none) rfl rfl rfl

/-- Claim C9, counterexample: the provider message
`Requests from this referer are blocked` matches the claim's keyword list
(`referer`), yet the netlify generate-recipe catch relays it verbatim — its
keyword list lacks `referer` — so the user-facing message contains the
provider's original error text and is not the fixed actionable string. -/
theorem c9_counterexample :
    jsIncludes ("Requests from this referer are blocked".toList) ("referer".toList) = true
    ∧ (netlifyGenCatch ⟨none, some ("Requests from this referer are blocked".toList)⟩).2
        = Jval.obj [(("error".toList),
            Jval.str ("Requests from this referer are blocked".toList))]
    ∧ ("Requests from this referer are blocked".toList) ≠ genRecipeKeyFixedMsg := by
  refine ⟨rfl, rfl, by decide⟩

/-- Claim C9, amended: each handler rewrites its own keyword list to its own
fixed actionable constant, independent of the provider text and of the
credential (the rewrite takes no credential input): analyze-image rewrites all
six keywords (expired, renew, leaked, API key, INVALID, referer) — and the
fixed constant survives the subsequent timeout rewrite — while generate-recipe
rewrites only the first five, so a referer-matched error passes through
verbatim there (see the counterexample). -/
theorem c9_credential_rewrite :
    (∀ m, (jsIncludes m ("expired".toList) || jsIncludes m ("renew".toList)
        || jsIncludes m ("leaked".toList) || jsIncludes m ("API key".toList)
        || jsIncludes m ("INVALID".toList) || jsIncludes m ("referer".toList)) = true →
      analyzeTimeoutRewrite (analyzeKeywordRewrite m) = analyzeKeyFixedMsg)
    ∧ (∀ m, (jsIncludes m ("expired".toList) || jsIncludes m ("renew".toList)
        || jsIncludes m ("leaked".toList) || jsIncludes m ("API key".toList)
        || jsIncludes m ("INVALID".toList)) = true →
      genRecipeKeywordRewrite m = genRecipeKeyFixedMsg) := by
  constructor
  · intro m hmatch
    have h1 : analyzeKeywordRewrite m = analyzeKeyFixedMsg := by
      unfold analyzeKeywordRewrite
      rw [if_pos hmatch]
    rw [h1]
    rfl
  · intro m hmatch
    unfold genRecipeKeywordRewrite
    rw [if_pos hmatch]

/-- Claim C9 witness: the amended theorem applied to a concrete expired-key
message in both handlers. -/
theorem c9_credential_rewrite_witness :
    analyzeTimeoutRewrite (analyzeKeywordRewrite ("API key expired".toList))
      = analyzeKeyFixedMsg
    ∧ genRecipeKeywordRewrite ("API key expired".toList) = genRecipeKeyFixedMsg :=
  ⟨c9_credential_rewrite.1 ("API key expired".toList) rfl,
   c9_credential_rewrite.2 ("API key expired".toList) rfl⟩


/-! ### Claim C2: the retry-after extraction -/

/-- Text of the optional fractional capture. -/
def fracRepr : Option Str → Str
  | none => []
  | some f => '.' :: f

/-- Well-formedness of the optional fractional capture. -/
def fracWf : Option Str → Prop
  | none => True
  | some f => f ≠ [] ∧ ∀ c ∈ f, isDigitCh c = true

/-- The provider text contains a fragment of the form `retry in <number>s`,
with `<number>` as the regex writes it: one or more digits with an optional
dot-separated fraction. -/
def hasRetryFragment (m : Str) : Prop :=
  ∃ pre d fr post, m = pre ++ retryInPat ++ d ++ fracRepr fr ++ 's' :: post
    ∧ d ≠ [] ∧ (∀ c ∈ d, isDigitCh c = true) ∧ fracWf fr

/-- A head (if any) that cannot extend a digit run. -/
def headNotDigit : Str → Prop
  | [] => True
  | c :: _ => isDigitCh c = false

theorem digitsTake_fst_digits (s : Str) : ∀ c ∈ (digitsTake s).1, isDigitCh c = true := by
  intro c hc
  have := List.all_takeWhile (p := isDigitCh) (l := s)
  exact (List.all_eq_true.mp this) c hc

theorem digitsTake_decomp (s : Str) : s = (digitsTake s).1 ++ (digitsTake s).2 :=
  (List.takeWhile_append_dropWhile isDigitCh s).symm

theorem digitsTake_append (d rest : Str) (hd : ∀ c ∈ d, isDigitCh c = true)
    (hr : headNotDigit rest) : digitsTake (d ++ rest) = (d, rest) := by
  induction d with
  | nil =>
    cases rest with
    | nil => rfl
    | cons c r =>
      simp only [headNotDigit] at hr
      simp [digitsTake, List.takeWhile_cons, List.dropWhile_cons, hr]
  | cons c cs ih =>
    have hc : isDigitCh c = true := hd c (by simp)
    have ih2 := ih (fun x hx => hd x (by simp [hx]))
    simp only [digitsTake, Prod.mk.injEq] at ih2
    simp [digitsTake, List.takeWhile_cons, List.dropWhile_cons, hc, ih2.1, ih2.2]

theorem matchNumAt_sound (s d : Str) (fr : Option Str)
    (h : matchNumAt s = some (d, fr)) :
    ∃ post, s = d ++ fracRepr fr ++ 's' :: post
      ∧ d ≠ [] ∧ (∀ c ∈ d, isDigitCh c = true) ∧ fracWf fr := by
  obtain ⟨p1, p2, hP⟩ : ∃ a b, digitsTake s = (a, b) := ⟨_, _, rfl⟩
  have hdig : ∀ c ∈ p1, isDigitCh c = true := by
    have hx := digitsTake_fst_digits s
    rw [hP] at hx
    exact hx
  have hdec : s = p1 ++ p2 := by
    have hx := digitsTake_decomp s
    rw [hP] at hx
    exact hx
  unfold matchNumAt at h
  rw [hP] at h
  simp only [] at h
  by_cases h1 : p1.isEmpty = true
  · rw [if_pos h1] at h; exact absurd h (by simp)
  · rw [if_neg h1] at h
    have hp1 : p1 ≠ [] := by simpa [List.isEmpty_iff] using h1
    by_cases hdot : p2.head? = some '.'
    · rw [if_pos hdot] at h
      obtain ⟨c, r2, rfl⟩ : ∃ c r2, p2 = c :: r2 := by
        cases p2 with
        | nil => simp at hdot
        | cons c r2 => exact ⟨c, r2, rfl⟩
      simp only [List.head?_cons, Option.some.injEq] at hdot
      subst hdot
      simp only [List.tail_cons] at h
      obtain ⟨q1, q2, hQ⟩ : ∃ a b, digitsTake r2 = (a, b) := ⟨_, _, rfl⟩
      have hqdig : ∀ x ∈ q1, isDigitCh x = true := by
        have hx := digitsTake_fst_digits r2
        rw [hQ] at hx
        exact hx
      have hqdec : r2 = q1 ++ q2 := by
        have hx := digitsTake_decomp r2
        rw [hQ] at hx
        exact hx
      rw [hQ] at h
      simp only [] at h
      by_cases h2 : q1.isEmpty = true
      · rw [if_pos h2] at h; exact absurd h (by simp)
      · rw [if_neg h2] at h
        have hq1 : q1 ≠ [] := by simpa [List.isEmpty_iff] using h2
        by_cases hs3 : q2.head? = some 's'
        · rw [if_pos hs3] at h
          obtain ⟨c3, tail, rfl⟩ : ∃ c3 tail, q2 = c3 :: tail := by
            cases q2 with
            | nil => simp at hs3
            | cons c3 tail => exact ⟨c3, tail, rfl⟩
          simp only [List.head?_cons, Option.some.injEq] at hs3
          subst hs3
          simp only [Option.some.injEq, Prod.mk.injEq] at h
          obtain ⟨rfl, rfl⟩ := h
          exact ⟨tail, by rw [hdec, hqdec]; simp [fracRepr], hp1, hdig, hq1, hqdig⟩
        · rw [if_neg hs3] at h; exact absurd h (by simp)
    · rw [if_neg hdot] at h
      by_cases hs3 : p2.head? = some 's'
      · rw [if_pos hs3] at h
        obtain ⟨c, r2, rfl⟩ : ∃ c r2, p2 = c :: r2 := by
          cases p2 with
          | nil => simp at hs3
          | cons c r2 => exact ⟨c, r2, rfl⟩
        simp only [List.head?_cons, Option.some.injEq] at hs3
        subst hs3
        simp only [Option.some.injEq, Prod.mk.injEq] at h
        obtain ⟨rfl, rfl⟩ := h
        exact ⟨r2, by rw [hdec]; simp [fracRepr], hp1, hdig, trivial⟩
      · rw [if_neg hs3] at h; exact absurd h (by simp)

theorem matchNumAt_complete (d : Str) (fr : Option Str) (post : Str)
    (hd : d ≠ []) (hdig : ∀ c ∈ d, isDigitCh c = true) (hfr : fracWf fr) :
    matchNumAt (d ++ fracRepr fr ++ 's' :: post) = some (d, fr) := by
  cases fr with
  | none =>
    have hdt : digitsTake (d ++ 's' :: post) = (d, 's' :: post) :=
      digitsTake_append d ('s' :: post) hdig (by simp [headNotDigit, isDigitCh])
    unfold matchNumAt
    simp only [fracRepr, List.append_nil]
    rw [hdt]
    simp [List.isEmpty_iff, hd]
  | some f =>
    obtain ⟨hf, hfdig⟩ := hfr
    have hdt : digitsTake (d ++ '.' :: (f ++ 's' :: post)) = (d, '.' :: (f ++ 's' :: post)) :=
      digitsTake_append d ('.' :: (f ++ 's' :: post)) hdig (by simp [headNotDigit, isDigitCh])
    have hft : digitsTake (f ++ 's' :: post) = (f, 's' :: post) :=
      digitsTake_append f ('s' :: post) hfdig (by simp [headNotDigit, isDigitCh])
    have hshape : d ++ fracRepr (some f) ++ 's' :: post = d ++ '.' :: (f ++ 's' :: post) := by
      simp [fracRepr]
    unfold matchNumAt
    rw [hshape, hdt]
    simp [List.isEmpty_iff, hd, hft, hf]

theorem strStartsWith_append_left (pat r : Str) : strStartsWith (pat ++ r) pat = true := by
  induction pat with
  | nil => cases r <;> rfl
  | cons p ps ih => simp [strStartsWith, ih]

theorem strStartsWith_decomp (s pat : Str) (h : strStartsWith s pat = true) :
    ∃ r, s = pat ++ r := by
  induction pat generalizing s with
  | nil => exact ⟨s, rfl⟩
  | cons p ps ih =>
    cases s with
    | nil => simp [strStartsWith] at h
    | cons c cs =>
      simp only [strStartsWith, Bool.and_eq_true, decide_eq_true_eq] at h
      obtain ⟨r, hr⟩ := ih cs h.2
      exact ⟨r, by simp [h.1, hr]⟩

theorem findRetry_cons_step (c : Char) (cs : Str) :
    findRetry (c :: cs)
      = (if strStartsWith (c :: cs) retryInPat then
          (match matchNumAt ((c :: cs).drop 9) with
           | some p => some p
           | none => findRetry cs)
        else findRetry cs) := rfl

theorem findRetry_complete (pre : Str) : ∀ m body : Str,
    m = pre ++ retryInPat ++ body → matchNumAt body ≠ none → findRetry m ≠ none := by
  induction pre with
  | nil =>
    intro m body hm hmat
    subst hm
    have hsw : strStartsWith (retryInPat ++ body) retryInPat = true :=
      strStartsWith_append_left retryInPat body
    have hdrop : (retryInPat ++ body).drop 9 = body :=
      List.drop_left' (by rfl)
    show findRetry (([] : Str) ++ retryInPat ++ body) ≠ none
    have hstep : findRetry (([] : Str) ++ retryInPat ++ body)
        = (if strStartsWith (retryInPat ++ body) retryInPat then
            (match matchNumAt ((retryInPat ++ body).drop 9) with
             | some p => some p
             | none =>
               findRetry (('e' :: 't' :: 'r' :: 'y' :: ' ' :: 'i' :: 'n' :: ' ' :: []) ++ body))
          else
            findRetry (('e' :: 't' :: 'r' :: 'y' :: ' ' :: 'i' :: 'n' :: ' ' :: []) ++ body)) :=
      rfl
    rw [hstep, if_pos hsw, hdrop]
    cases hmm : matchNumAt body with
    | none => exact absurd hmm hmat
    | some p => simp
  | cons c pre ih =>
    intro m body hm hmat
    subst hm
    rw [show ((c :: pre) ++ retryInPat ++ body) = c :: (pre ++ retryInPat ++ body) by simp]
    rw [findRetry_cons_step]
    by_cases hsw : strStartsWith (c :: (pre ++ retryInPat ++ body)) retryInPat = true
    · rw [if_pos hsw]
      cases hmm : matchNumAt ((c :: (pre ++ retryInPat ++ body)).drop 9) with
      | some p => simp
      | none => exact ih _ body rfl hmat
    · rw [if_neg hsw]
      exact ih _ body rfl hmat

theorem findRetry_sound : ∀ m d : Str, ∀ fr : Option Str,
    findRetry m = some (d, fr) →
    ∃ pre post, m = pre ++ retryInPat ++ d ++ fracRepr fr ++ 's' :: post
      ∧ d ≠ [] ∧ (∀ c ∈ d, isDigitCh c = true) ∧ fracWf fr := by
  intro m
  induction m with
  | nil => intro d fr h; simp [findRetry] at h
  | cons c cs ih =>
    intro d fr h
    rw [findRetry_cons_step] at h
    by_cases hsw : strStartsWith (c :: cs) retryInPat = true
    · rw [if_pos hsw] at h
      cases hmm : matchNumAt ((c :: cs).drop 9) with
      | some p =>
        rw [hmm] at h
        simp only [Option.some.injEq] at h
        subst h
        obtain ⟨r0, hr0⟩ := strStartsWith_decomp (c :: cs) retryInPat hsw
        have hdrop : (c :: cs).drop 9 = r0 := by
          rw [hr0]; exact List.drop_left' (by rfl)
        rw [hdrop] at hmm
        obtain ⟨post, hshape, hd, hdig, hfr⟩ := matchNumAt_sound r0 d fr hmm
        exact ⟨[], post, by rw [hr0, hshape]; simp, hd, hdig, hfr⟩
      | none =>
        rw [hmm] at h
        obtain ⟨pre, post, hm, hd, hdig, hfr⟩ := ih d fr h
        exact ⟨c :: pre, post, by rw [hm]; simp, hd, hdig, hfr⟩
    · rw [if_neg hsw] at h
      obtain ⟨pre, post, hm, hd, hdig, hfr⟩ := ih d fr h
      exact ⟨c :: pre, post, by rw [hm]; simp, hd, hdig, hfr⟩

theorem foldl_digits_lt (f : Str) : ∀ a : Nat, (∀ c ∈ f, isDigitCh c = true) →
    f.foldl (fun a c => 10 * a + (c.toNat - 48)) a < (a + 1) * 10 ^ f.length := by
  induction f with
  | nil => intro a _; simp
  | cons c cs ih =>
    intro a h
    have hc : isDigitCh c = true := h c (by simp)
    have hv : c.toNat - 48 ≤ 9 := by
      simp only [isDigitCh, Bool.and_eq_true, decide_eq_true_eq] at hc
      omega
    have hrec := ih (10 * a + (c.toNat - 48)) (fun x hx => h x (by simp [hx]))
    simp only [List.foldl_cons, List.length_cons]
    calc cs.foldl (fun a c => 10 * a + (c.toNat - 48)) (10 * a + (c.toNat - 48))
        < (10 * a + (c.toNat - 48) + 1) * 10 ^ cs.length := hrec
      _ ≤ ((a + 1) * 10) * 10 ^ cs.length := by
          have : 10 * a + (c.toNat - 48) + 1 ≤ (a + 1) * 10 := by omega
          exact Nat.mul_le_mul_right _ this
      _ = (a + 1) * 10 ^ (cs.length + 1) := by ring

theorem digitsToNat_lt (f : Str) (hf : ∀ c ∈ f, isDigitCh c = true) :
    digitsToNat f < 10 ^ f.length := by
  have := foldl_digits_lt f 0 hf
  simpa [digitsToNat] using this

/-- The fractional value this code ceils. -/
theorem ceil_capturedValQ (d : Str) (fr : Option Str) (hfr : fracWf fr) :
    ⌈capturedValQ d fr⌉
      = (digitsToNat d : Int)
        + (if 0 < (match fr with | none => 0 | some f => digitsToNat f) then 1 else 0) := by
  cases fr with
  | none => simp [capturedValQ]
  | some f =>
    obtain ⟨hne, hdig⟩ := hfr
    have hFlt : digitsToNat f < 10 ^ f.length := digitsToNat_lt f hdig
    by_cases hF : digitsToNat f = 0
    · simp [capturedValQ, hF]
    · have hFpos : 0 < digitsToNat f := Nat.pos_of_ne_zero hF
      have hpow : (0 : ℚ) < (10 : ℚ) ^ f.length := by positivity
      have hx1 : (0 : ℚ) < (digitsToNat f : ℚ) / (10 : ℚ) ^ f.length := by positivity
      have hx2 : (digitsToNat f : ℚ) / (10 : ℚ) ^ f.length ≤ 1 := by
        rw [div_le_one hpow]
        calc ((digitsToNat f : ℚ)) ≤ ((10 ^ f.length : ℕ) : ℚ) := by exact_mod_cast le_of_lt hFlt
          _ = (10 : ℚ) ^ f.length := by push_cast; ring
      have hceil : ⌈(digitsToNat f : ℚ) / (10 : ℚ) ^ f.length⌉ = 1 := by
        rw [Int.ceil_eq_iff]
        constructor
        · simpa using hx1
        · simpa using hx2
      have hsum : capturedValQ d (some f)
          = (digitsToNat f : ℚ) / (10 : ℚ) ^ f.length + ((digitsToNat d : ℤ) : ℚ) := by
        simp [capturedValQ]
        ring
      rw [hsum, Int.ceil_add_int, hceil]
      simp [hFpos]
      omega

/-- Claim C2 — confirmed: on a provider failure, if the error text contains a
`retry in <number>s` fragment then the computed retry hint is exactly the
ceiling of that number (the matcher finds such a fragment, with the witness
decomposition returned), equal to the integer part plus one exactly when the
fraction is positive; and with no such fragment — or no message at all — the
hint is the 60-second default. -/
theorem c2_quota_retry_extraction (m : Str) :
    (hasRetryFragment m →
      ∃ d fr, findRetry m = some (d, fr)
        ∧ quotaRetrySeconds (some m) = ⌈capturedValQ d fr⌉
        ∧ quotaRetrySeconds (some m)
            = (digitsToNat d : Int)
              + (if 0 < (match fr with | none => 0 | some f => digitsToNat f) then 1 else 0)
        ∧ ∃ pre post, m = pre ++ retryInPat ++ d ++ fracRepr fr ++ 's' :: post
            ∧ d ≠ [] ∧ (∀ c ∈ d, isDigitCh c = true) ∧ fracWf fr)
    ∧ (¬ hasRetryFragment m → quotaRetrySeconds (some m) = 60)
    ∧ quotaRetrySeconds none = 60 := by
  refine ⟨?_, ?_, rfl⟩
  · intro hfrag
    obtain ⟨pre, d0, fr0, post0, hm, hd0, hdig0, hfr0⟩ := hfrag
    have hmat : matchNumAt (d0 ++ fracRepr fr0 ++ 's' :: post0) ≠ none := by
      rw [matchNumAt_complete d0 fr0 post0 hd0 hdig0 hfr0]
      simp
    have hsome : findRetry m ≠ none := by
      refine findRetry_complete pre m (d0 ++ fracRepr fr0 ++ 's' :: post0) ?_ hmat
      rw [hm]; simp
    cases hfind : findRetry m with
    | none => exact absurd hfind hsome
    | some p =>
      obtain ⟨d1, fr1⟩ := p
      obtain ⟨pre1, post1, hm1, hd1, hdig1, hfr1⟩ := findRetry_sound m d1 fr1 hfind
      refine ⟨d1, fr1, rfl, ?_, ?_, pre1, post1, hm1, hd1, hdig1, hfr1⟩
      · simp [quotaRetrySeconds, hfind]
      · simp only [quotaRetrySeconds, hfind]
        exact ceil_capturedValQ d1 fr1 hfr1
  · intro hno
    cases hfind : findRetry m with
    | none => simp [quotaRetrySeconds, hfind]
    | some p =>
      obtain ⟨d1, fr1⟩ := p
      obtain ⟨pre1, post1, hm1, hd1, hdig1, hfr1⟩ := findRetry_sound m d1 fr1 hfind
      exact absurd ⟨pre1, d1, fr1, post1, hm1, hd1, hdig1, hfr1⟩ hno

/-- Claim C2 witness: the theorem applied to the spec example
`retry in 12.5s` (expected ceiling 13) and to a quota message without a
fragment (expected 60). -/
theorem c2_quota_retry_extraction_witness :
    (∃ d fr, findRetry ("quota hit, retry in 12.5s now".toList) = some (d, fr)
      ∧ quotaRetrySeconds (some ("quota hit, retry in 12.5s now".toList)) = ⌈capturedValQ d fr⌉
      ∧ quotaRetrySeconds (some ("quota hit, retry in 12.5s now".toList))
          = (digitsToNat d : Int)
            + (if 0 < (match fr with | none => 0 | some f => digitsToNat f) then 1 else 0)
      ∧ ∃ pre post, ("quota hit, retry in 12.5s now".toList)
            = pre ++ retryInPat ++ d ++ fracRepr fr ++ 's' :: post
          ∧ d ≠ [] ∧ (∀ c ∈ d, isDigitCh c = true) ∧ fracWf fr)
    ∧ quotaRetrySeconds (some ("quota hit, retry in 12.5s now".toList)) = 13
    ∧ (¬ hasRetryFragment ("You exceeded your quota".toList) →
        quotaRetrySeconds (some ("You exceeded your quota".toList)) = 60) := by
  refine ⟨(c2_quota_retry_extraction ("quota hit, retry in 12.5s now".toList)).1
    ⟨("quota hit, ".toList), ("12".toList), some ("5".toList), (" now".toList),
      by decide, by decide, by decide, by decide, by decide⟩, ?_, ?_⟩
  · have h1 : findRetry ("quota hit, retry in 12.5s now".toList)
        = some (("12".toList), some ("5".toList)) := rfl
    have h2 := ceil_capturedValQ ("12".toList) (some ("5".toList))
      ⟨by decide, by decide⟩
    simp only [quotaRetrySeconds, h1, h2]
    decide
  · exact (c2_quota_retry_extraction ("You exceeded your quota".toList)).2.1

/-! ### Claim C5: the response-repair round-trip -/

/-- A provider answer wrapped in the surrounding code-fence markers that the
repair step of api/generate-recipe.ts lines 113-116 strips. -/
def fenceWrap (s : Str) : Str := ("```json\n").toList ++ s ++ ("\n```").toList

theorem jgoodItems_of_strings (xs : List Jval)
    (h : xs.all (fun x => match x with | .str _ => true | _ => false) = true) :
    jgoodItems xs = true := by
  induction xs with
  | nil => rfl
  | cons x xs ih =>
    simp only [List.all_cons, Bool.and_eq_true] at h
    cases x <;> simp_all [jgoodItems, jgood]

theorem jgood_of_fieldOk (k : Str) (v : Jval) (h : recipeFieldOk k v = true) :
    jgood v = true := by
  simp only [recipeFieldOk, Bool.or_eq_true, Bool.and_eq_true] at h
  rcases h with ⟨-, h⟩ | ⟨-, h⟩
  · cases v
    case arr xs =>
      simp only [isNonEmptyStrArr, Bool.and_eq_true] at h
      simpa [jgood] using jgoodItems_of_strings xs h.2
    all_goals simp [isNonEmptyStrArr] at h
  · cases v <;> simp_all [isNonEmptyStr, jgood]

theorem jgoodProps_of_fieldsOk (ps : List (Str × Jval))
    (h : ps.all (fun p => recipeFieldOk p.1 p.2) = true) :
    jgoodProps ps = true := by
  induction ps with
  | nil => rfl
  | cons p ps ih =>
    obtain ⟨k, v⟩ := p
    simp only [List.all_cons, Bool.and_eq_true] at h
    simp only [jgoodProps, Bool.and_eq_true]
    exact ⟨jgood_of_fieldOk k v h.1, ih h.2⟩

/-- A value satisfying the Recipe invariants contains no raw numeric literal,
so it lies in the writer/reader round-trip domain. -/
theorem jgood_of_recipeValue (v : Jval) (h : recipeValue v = true) :
    jgood v = true := by
  cases v
  case obj ps =>
    simp only [recipeValue, Bool.and_eq_true] at h
    simpa [jgood] using jgoodProps_of_fieldsOk ps h.2
  all_goals simp [recipeValue] at h

/-- The reader rejects any input whose first character is a backquote. -/
theorem jreadVal_backtickHead (f : Nat) (r : Str) :
    jreadVal (f + 1) (Char.ofNat 96 :: r) = none := rfl

/-- A fenced answer never parses directly. -/
theorem jsonParse_fenceWrap (w : Str) : jsonParse (fenceWrap w) = none := by
  have hr : jreadVal ((fenceWrap w).length + 1) (fenceWrap w) = none :=
    jreadVal_backtickHead _ _
  simp [jsonParse, hr]

theorem stripFenceHead_fenceWrap (u : Str) :
    stripFenceHead (fenceWrap ('\x7b' :: u)) = ('\x7b' :: u) ++ ("\n```").toList := rfl

theorem stripFenceTail_fenceTail (u : Str) :
    stripFenceTail (('\x7b' :: (u ++ ['\x7d'])) ++ ("\n```").toList)
      = '\x7b' :: (u ++ ['\x7d']) := by
  have h4 : (("\n```").toList).reverse
      = [Char.ofNat 96, Char.ofNat 96, Char.ofNat 96, '\n'] := rfl
  have ht : ('\x7b' :: (u ++ ['\x7d'])).reverse = '\x7d' :: (u.reverse ++ ['\x7b']) := by
    simp
  have hrev : ((('\x7b' :: (u ++ ['\x7d'])) ++ ("\n```").toList)).reverse
      = Char.ofNat 96 :: Char.ofNat 96 :: Char.ofNat 96 :: '\n'
          :: '\x7d' :: (u.reverse ++ ['\x7b']) := by
    rw [List.reverse_append, h4, ht]
    rfl
  simp only [stripFenceTail]
  rw [hrev]
  rw [if_pos (show strStartsWith
      (Char.ofNat 96 :: Char.ofNat 96 :: Char.ofNat 96 :: '\n'
        :: '\x7d' :: (u.reverse ++ ['\x7b'])) (("```").toList) = true from rfl)]
  show ('\x7d' :: (u.reverse ++ ['\x7b'])).reverse = '\x7b' :: (u ++ ['\x7d'])
  simp

theorem jsTrim_obj (u : Str) :
    jsTrim ('\x7b' :: (u ++ ['\x7d'])) = '\x7b' :: (u ++ ['\x7d']) := by
  have ht : ('\x7b' :: (u ++ ['\x7d'])).reverse = '\x7d' :: (u.reverse ++ ['\x7b']) := by
    simp
  simp only [jsTrim]
  rw [show ('\x7b' :: (u ++ ['\x7d'])).dropWhile jsWsCh = '\x7b' :: (u ++ ['\x7d']) from rfl,
    ht]
  rw [show ('\x7d' :: (u.reverse ++ ['\x7b'])).dropWhile jsWsCh
      = '\x7d' :: (u.reverse ++ ['\x7b']) from rfl]
  simp

/-- Stripping the fences of a fenced object rendering recovers the rendering. -/
theorem stripFence_fenceWrap (u : Str) :
    jsTrim (stripFenceTail (stripFenceHead (fenceWrap ('\x7b' :: (u ++ ['\x7d'])))))
      = '\x7b' :: (u ++ ['\x7d']) := by
  rw [stripFenceHead_fenceWrap (u ++ ['\x7d']), stripFenceTail_fenceTail u, jsTrim_obj u]

/-- Claim C5 — confirmed: ResponseRepair succeeds on `JSON.stringify` of every
value satisfying the Recipe invariants, both as-is and wrapped in code-fence
markers; the first attempt is the direct parse (whenever the direct parse
succeeds the repair returns its value), and only on its failure is the
fence-stripped, trimmed re-parse performed. -/
theorem c5_repair_roundtrip (v : Jval) (hv : recipeValue v = true) :
    repairParse (jsonWrite v) = some v
    ∧ repairParse (fenceWrap (jsonWrite v)) = some v
    ∧ (∀ s u, jsonParse s = some u → repairParse s = some u)
    ∧ (∀ s, jsonParse s = none →
        repairParse s = jsonParse (jsTrim (stripFenceTail (stripFenceHead s)))) := by
  have hg : jgood v = true := jgood_of_recipeValue v hv
  have hparse : jsonParse (jsonWrite v) = some v := jsonParse_jsonWrite v hg
  obtain ⟨ps, rfl⟩ : ∃ ps, v = Jval.obj ps := by
    cases v
    case obj ps => exact ⟨ps, rfl⟩
    all_goals simp [recipeValue] at hv
  refine ⟨by simp [repairParse, hparse], ?_, ?_, ?_⟩
  · have hw : jsonWrite (Jval.obj ps) = '\x7b' :: (jsonWriteProps ps ++ ['\x7d']) := rfl
    have hnone : jsonParse (fenceWrap (jsonWrite (Jval.obj ps))) = none :=
      jsonParse_fenceWrap _
    have hstrip :
        jsTrim (stripFenceTail (stripFenceHead (fenceWrap (jsonWrite (Jval.obj ps)))))
          = jsonWrite (Jval.obj ps) := by
      rw [hw]; exact stripFence_fenceWrap (jsonWriteProps ps)
    simp [repairParse, hnone, hstrip, hparse]
  · intro s u h; simp [repairParse, h]
  · intro s h; simp [repairParse, h]

/-- A concrete Recipe value used to instantiate the round-trip. -/
def testRecipe : Jval := Jval.obj
  [(("recipeName".toList), Jval.str ("Maqluba".toList)),
   (("origin".toList), Jval.str ("Palestine".toList)),
   (("cuisineType".toList), Jval.str ("Middle Eastern".toList)),
   (("prepTime".toList), Jval.str ("20 minutes".toList)),
   (("cookTime".toList), Jval.str ("45 minutes".toList)),
   (("difficulty".toList), Jval.str ("Medium".toList)),
   (("ingredients".toList), Jval.arr [Jval.str ("rice".toList), Jval.str ("chicken".toList)]),
   (("instructions".toList), Jval.arr [Jval.str ("Cook.".toList)])]

/-- Claim C5 witness: the round-trip theorem applied to a concrete Recipe
value, plain and fenced. -/
theorem c5_repair_roundtrip_witness :
    recipeValue testRecipe = true
    ∧ repairParse (jsonWrite testRecipe) = some testRecipe
    ∧ repairParse (fenceWrap (jsonWrite testRecipe)) = some testRecipe :=
  ⟨by decide, (c5_repair_roundtrip testRecipe (by decide)).1,
    (c5_repair_roundtrip testRecipe (by decide)).2.1⟩

/-! ### Claim C10: totality and well-formedness of the handlers -/

/-- A well-formed handler response: one of the five status codes the handlers
produce, and a body that is empty (the 204 preflight) or the rendering of a
JSON value. -/
def wellFormedResponse (r : HttpResponse) : Prop :=
  (r.statusCode = 204 ∨ r.statusCode = 400 ∨ r.statusCode = 405
      ∨ r.statusCode = 500 ∨ r.statusCode = 200)
    ∧ (r.body = [] ∨ ∃ j, r.body = jsonWrite j)

/-- Claim C10 — confirmed: for every inbound event (any method, any body) and
every outcome of the external multipart decode, resize and generation call —
including thrown errors, which the models carry as `Except.error` /
`GenOutcome.err` — both netlify handlers resolve to exactly one well-formed
response: a status code among 204/400/405/500/200 and a JSON (or empty
preflight) body.  Totality itself is witnessed by the models being total Lean
functions translated branch-for-branch from the handlers, whose every
pipeline stage sits inside the try of a try/catch. -/
theorem c10_total_handler (apiKey : Option Str) (event : HttpEvent)
    (gen : GenOutcome) (mp : Except JsError ParsedForm)
    (resize : Except JsError (List Nat)) :
    wellFormedResponse (netlifyGenRecipe apiKey event gen).1
    ∧ wellFormedResponse (netlifyAnalyzeImage apiKey event mp resize gen).1 := by
  constructor
  · unfold netlifyGenRecipe
    split
    · exact ⟨Or.inl rfl, Or.inl rfl⟩
    · split
      · split
        · exact ⟨by simp, Or.inr ⟨_, rfl⟩⟩
        · split
          next code j inv h =>
            rcases netlifyGenTry_codes event gen code j inv h with hc | hc <;>
              exact ⟨by simp [hc], Or.inr ⟨j, rfl⟩⟩
          next e inv h =>
            exact ⟨by simp [netlifyGenCatch], Or.inr ⟨_, rfl⟩⟩
      · exact ⟨by simp, Or.inr ⟨_, rfl⟩⟩
  · unfold netlifyAnalyzeImage
    split
    · exact ⟨Or.inl rfl, Or.inl rfl⟩
    · split
      · split
        · exact ⟨by simp, Or.inr ⟨_, rfl⟩⟩
        · split
          next code j inv h =>
            rcases netlifyAnalyzeTry_codes mp resize gen code j inv h with hc | hc <;>
              exact ⟨by simp [hc], Or.inr ⟨j, rfl⟩⟩
          next e inv h =>
            exact ⟨by simp [netlifyAnalyzeCatch], Or.inr ⟨_, rfl⟩⟩
      · exact ⟨by simp, Or.inr ⟨_, rfl⟩⟩

end RecipeAI
